import Mathlib

/-!
The calculator of cppcalculator: infix to postfix conversion and postfix evaluation.

A shallow embedding of `calculate.cpp`.  C++ strings are lists of characters,
`std::stack` is a list whose head is the top, `std::expected<T, std::string>` is
`Except String T`, and `int` is `Int`: `applyOp` computes over the integers (no
overflow), `applyOpM` with the 32-bit arithmetic of the machine.
-/

namespace Calc

deriving instance DecidableEq for Except

/-! ## Character classes -/

/-- The function `std::isspace` in the "C" locale: the space and the characters
numbered 9 to 13 (tab, line feed, vertical tab, form feed, carriage return). -/
def isspace (c : Char) : Bool :=
  c.toNat == 32 || (decide (9 ≤ c.toNat) && decide (c.toNat ≤ 13))

/-- The function `std::isdigit`: the characters `0` to `9`. -/
def isdigit (c : Char) : Bool :=
  decide (48 ≤ c.toNat) && decide (c.toNat ≤ 57)

/-! ## `precedence` and `applyOp` -/

/-- The function `precedence` of `calculate.cpp` (the name is reserved in Lean). -/
def precedenceOf (op : Char) : Nat :=
  if op = '+' ∨ op = '-' then 1
  else if op = '*' ∨ op = '/' then 2
  else 0

/-- The function `applyOp` of `calculate.cpp` with the arithmetic carried out over the
integers, that is, as long as no result leaves the range of `int`; a thrown exception
is the error carrying its `what()` text.  `a / b` of C++ truncates toward zero.  The
arithmetic of the machine is `applyOpM`. -/
def applyOp (a b : Int) (op : Char) : Except String Int :=
  if op = '+' then .ok (a + b)
  else if op = '-' then .ok (a - b)
  else if op = '*' then .ok (a * b)
  else if op = '/' then
    if b = 0 then .error "Division by zero" else .ok (Int.tdiv a b)
  else .error "Invalid operator"

/-! ## `infixToPostfix` -/

/-- The local variables of `infixToPostfix`; `out` is the stream `postfix`. -/
structure ConvState where
  operators : List Char
  out : List Char
  parenthesesBalance : Nat
  expectOperand : Bool
deriving DecidableEq, Repr

/-- The loop of the `')'` branch: emit and pop while the stack is non-empty and its
top is not `'('`. -/
def popToOpen : List Char → List Char → List Char × List Char
  | [], out => ([], out)
  | o :: os, out =>
    if o ≠ '(' then popToOpen os (out ++ [' ', o]) else (o :: os, out)

/-- The loop of the operator branch: emit and pop while the stack is non-empty and
the precedence of its top is at least that of `c`. -/
def popPrec (c : Char) : List Char → List Char → List Char × List Char
  | [], out => ([], out)
  | o :: os, out =>
    if precedenceOf o ≥ precedenceOf c then popPrec c os (out ++ [' ', o])
    else (o :: os, out)

/-- The final loop: emit and pop every operator left on the stack. -/
def popAll : List Char → List Char → List Char
  | [], out => out
  | o :: os, out => popAll os (out ++ [' ', o])

/-- One iteration of the `for` loop of `infixToPostfix`.  `operators.pop()` on an
empty stack (undefined behaviour in C++) leaves the stack empty. -/
def convStep (st : ConvState) (c : Char) : Except String ConvState :=
  if isspace c then .ok st
  else if isdigit c then
    if !st.expectOperand then .error "Invalid expression: Unexpected operand"
    else .ok { st with out := st.out ++ [c], expectOperand := false }
  else if c = '(' then
    .ok { st with operators := c :: st.operators,
                  parenthesesBalance := st.parenthesesBalance + 1,
                  expectOperand := true }
  else if c = ')' then
    if st.parenthesesBalance = 0 then .error "Invalid expression: Mismatched parentheses"
    else
      let r := popToOpen st.operators st.out
      .ok { operators := r.1.tail, out := r.2,
            parenthesesBalance := st.parenthesesBalance - 1,
            expectOperand := false }
  else
    if st.expectOperand then .error "Invalid expression: Unexpected operator"
    else
      let r := popPrec c st.operators st.out
      .ok { st with operators := c :: r.1, out := r.2 ++ [' '],
                    expectOperand := true }

/-- The `for` loop of `infixToPostfix` over the characters of the expression. -/
def convScan : ConvState → List Char → Except String ConvState
  | st, [] => .ok st
  | st, c :: cs =>
    match convStep st c with
    | .error e => .error e
    | .ok st' => convScan st' cs

/-- The code after the loop: the balance check and the final flush. -/
def convFinish (st : ConvState) : Except String (List Char) :=
  if st.parenthesesBalance ≠ 0 then .error "Invalid expression: Mismatched parentheses"
  else .ok (popAll st.operators st.out)

/-- The initial values of the local variables of `infixToPostfix`. -/
def convInit : ConvState :=
  { operators := [], out := [], parenthesesBalance := 0, expectOperand := true }

/-- The function `infixToPostfix` of `calculate.cpp`. -/
def infixToPostfix (expression : List Char) : Except String (List Char) :=
  match convScan convInit expression with
  | .error e => .error e
  | .ok st => convFinish st

/-! ## `evaluatePostfix` -/

/-- Reading tokens with `tokens >> token`: skip whitespace, then take characters up
to the next whitespace.  `cur` is the token being read. -/
def splitAux : List Char → List Char → List (List Char)
  | cur, [] => if cur = [] then [] else [cur]
  | cur, c :: cs =>
    if isspace c then
      if cur = [] then splitAux [] cs else cur :: splitAux [] cs
    else splitAux (cur ++ [c]) cs

/-- The whitespace-separated tokens of a string. -/
def split (str : List Char) : List (List Char) := splitAux [] str

/-- The largest `int`. -/
def INT_MAX : Int := 2147483647

/-- The function `std::stoi` on a token that starts with a digit: the decimal value of the leading
digits; `std::out_of_range` (whose `what()` is `"stoi"`) when it exceeds `INT_MAX`. -/
def stoi (token : List Char) : Except String Int :=
  let v : Int := (token.takeWhile isdigit).foldl (fun acc c => acc * 10 + ((c.toNat : Int) - 48)) 0
  if v > INT_MAX then .error "stoi" else .ok v

/-- One iteration of the `while (tokens >> token)` loop of `evaluatePostfix`. -/
def evalStep (stack : List Int) (token : List Char) : Except String (List Int) :=
  match token with
  | [] => .ok stack
  | t0 :: _ =>
    if isdigit t0 then
      match stoi token with
      | .error e => .error e
      | .ok v => .ok (v :: stack)
    else
      match stack with
      | operand2 :: operand1 :: rest =>
        match applyOp operand1 operand2 t0 with
        | .error e => .error e
        | .ok result => .ok (result :: rest)
      | _ => .error "Invalid expression: not enough operands"

/-- The `while` loop of `evaluatePostfix` over the tokens. -/
def evalTokens : List Int → List (List Char) → Except String (List Int)
  | stack, [] => .ok stack
  | stack, t :: ts =>
    match evalStep stack t with
    | .error e => .error e
    | .ok stack' => evalTokens stack' ts

/-- The function `evaluatePostfix` of `calculate.cpp`. -/
def evaluatePostfix (expression : List Char) : Except String Int :=
  match evalTokens [] (split expression) with
  | .error e => .error e
  | .ok stack =>
    match stack with
    | [v] => .ok v
    | _ => .error "Invalid expression: too many operands"

/-- The conversion followed, when it succeeds, by the evaluation. -/
def calculate (expression : List Char) : Except String Int :=
  match infixToPostfix expression with
  | .error e => .error e
  | .ok p => evaluatePostfix p

/-! ## `printErrors` and `evaluate` -/

/-- The function `printErrors`: `false` when the argument holds an error (which it prints). -/
def printErrors {α : Type} (exp : Except String α) : Bool :=
  match exp with
  | .error _ => false
  | .ok _ => true

/-- The member `value_or` of `std::expected`. -/
def valueOr {α : Type} (exp : Except String α) (d : α) : α :=
  match exp with
  | .error _ => d
  | .ok v => v

/-- The function `evaluate` of `calculate.cpp`: the returned flag and the content of `result`
after the call (`result` before the call is the second argument). -/
def evaluate (expression : List Char) (result : Int) : Bool × Int :=
  let postfixExp := infixToPostfix expression
  let ret_value := printErrors postfixExp
  match postfixExp with
  | .error _ => (ret_value, result)
  | .ok p =>
    let evalResult := evaluatePostfix p
    let ret_value := printErrors postfixExp
    (ret_value, valueOr evalResult 0)

/-! ## Parse trees of infix expressions (reference semantics) -/

/-- The four operators of the calculator. -/
inductive Op where
  | add
  | sub
  | mul
  | div
deriving DecidableEq, Repr

/-- The character that writes an operator. -/
def Op.symbol : Op → Char
  | .add => '+'
  | .sub => '-'
  | .mul => '*'
  | .div => '/'

/-- Binding strength: `*` and `/` bind tighter than `+` and `-`. -/
def Op.level : Op → Nat
  | .add => 1
  | .sub => 1
  | .mul => 2
  | .div => 2

/-- Integer arithmetic; division truncates toward zero and is undefined on a zero
divisor. -/
def Op.apply : Op → Int → Int → Option Int
  | .add, a, b => some (a + b)
  | .sub, a, b => some (a - b)
  | .mul, a, b => some (a * b)
  | .div, a, b => if b = 0 then none else some (Int.tdiv a b)

/-- The character of a digit. -/
def digitChar (d : Fin 10) : Char := Char.ofNat (48 + d.val)

/-- Parse trees of infix expressions over single-digit operands. -/
inductive Expr where
  | num (d : Fin 10)
  | paren (e : Expr)
  | bin (op : Op) (l r : Expr)
deriving DecidableEq, Repr

namespace Expr

/-- Binding strength of the root of a tree: operands and parenthesised groups bind
tightest. -/
def level : Expr → Nat
  | num _ => 3
  | paren _ => 3
  | bin op _ _ => op.level

/-- A tree is the parse of its rendering under standard precedence and left
associativity: the left argument of an operator binds at least as tightly as the
operator, the right argument strictly tighter. -/
def WellFormed : Expr → Prop
  | num _ => True
  | paren e => WellFormed e
  | bin op l r => WellFormed l ∧ WellFormed r ∧ op.level ≤ level l ∧ op.level < level r

instance : (e : Expr) → Decidable (WellFormed e)
  | num _ => isTrue trivial
  | paren e => by
    have := instDecidableWellFormed e
    exact decidable_of_iff (WellFormed e) (by simp [WellFormed])
  | bin op l r => by
    have := instDecidableWellFormed l
    have := instDecidableWellFormed r
    exact decidable_of_iff
      (WellFormed l ∧ WellFormed r ∧ op.level ≤ level l ∧ op.level < level r)
      (by simp [WellFormed])

/-- The tokens of the expression, in infix order, without whitespace. -/
def render : Expr → List Char
  | num d => [digitChar d]
  | paren e => '(' :: (render e ++ [')'])
  | bin op l r => render l ++ op.symbol :: render r

/-- The value of the expression; `none` when a division by zero is met. -/
def value : Expr → Option Int
  | num d => some (d.val : Int)
  | paren e => value e
  | bin op l r =>
    match value l with
    | none => none
    | some a =>
      match value r with
      | none => none
      | some b => op.apply a b

/-- The post-order traversal of the tree, one token per operand and operator. -/
def rpn : Expr → List (List Char)
  | num d => [[digitChar d]]
  | paren e => rpn e
  | bin op l r => rpn l ++ rpn r ++ [[op.symbol]]

/-- The operators that the conversion of the expression leaves on the operator
stack, top first. -/
def pending : Expr → List Op
  | num _ => []
  | paren _ => []
  | bin op _ r => pending r ++ [op]

/-- Some division of the expression has a right operand whose value is zero. -/
def hasZeroDivisor : Expr → Bool
  | num _ => false
  | paren e => hasZeroDivisor e
  | bin op l r =>
    hasZeroDivisor l || hasZeroDivisor r || (decide (op = Op.div) && decide (value r = some 0))

end Expr

/-- The parse tree of `3 + 4 * 2 / ( 1 - 5 )`, an expression of `runTests`. -/
def testExpr : Expr :=
  .bin .add (.num 3)
    (.bin .div (.bin .mul (.num 4) (.num 2)) (.paren (.bin .sub (.num 1) (.num 5))))

/-- The parse tree of `3 + 4 * 2 / ( 1 - 5 ) * 2 * 3`, the demo expression of `main`. -/
def demoExpr : Expr :=
  .bin .add (.num 3)
    (.bin .mul
      (.bin .mul
        (.bin .div (.bin .mul (.num 4) (.num 2)) (.paren (.bin .sub (.num 1) (.num 5))))
        (.num 2))
      (.num 3))

/-- The characters written when the listed stack entries are popped and emitted. -/
def flush : List Char → List Char
  | [] => []
  | o :: os => ' ' :: o :: flush os

/-- The characters that the conversion of the expression writes to the output
before its pending operators are popped. -/
def Expr.emitted : Expr → List Char
  | .num d => [digitChar d]
  | .paren e => e.emitted ++ flush (e.pending.map Op.symbol)
  | .bin _ l r => l.emitted ++ flush (l.pending.map Op.symbol) ++ [' '] ++ r.emitted

/-! ## Shape of the input -/

/-- The last character of `p` that is not whitespace, if any. -/
def lastToken (p : List Char) : Option Char :=
  (p.filter (fun c => !isspace c)).getLast?

/-- The four operator symbols. -/
def isOperator (c : Char) : Bool :=
  c == '+' || c == '-' || c == '*' || c == '/'

/-- The parentheses of `s` are balanced: no prefix contains more `)` than `(`, and
the total counts are equal. -/
def Balanced (s : List Char) : Prop :=
  (∀ n, (s.take n).count ')' ≤ (s.take n).count '(') ∧ s.count '(' = s.count ')'

/-- The strings of the grammar `E ::= digit | E op E | ( E )`. -/
inductive InfixString : List Char → Prop where
  | digit (d : Char) : isdigit d = true → InfixString [d]
  | bin (a : List Char) (o : Char) (b : List Char) :
      InfixString a → isOperator o = true → InfixString b → InfixString (a ++ o :: b)
  | paren (a : List Char) : InfixString a → InfixString ('(' :: (a ++ [')']))

/-- The left-to-right check of the grammar: where an operand is expected the token is
a digit or `(`, elsewhere it is an operator or a `)` that closes an open group, and
the input ends with no operand expected and no group open. -/
def infixCheck : Bool → Nat → List Char → Bool
  | expect, depth, [] => !expect && depth == 0
  | true, depth, c :: cs =>
    if isdigit c then infixCheck false depth cs
    else if c = '(' then infixCheck true (depth + 1) cs
    else false
  | false, depth, c :: cs =>
    if isOperator c then infixCheck true depth cs
    else if c = ')' then
      match depth with
      | 0 => false
      | d + 1 => infixCheck false d cs
    else false

/-- The top of the stack `S`, if any, has precedence below `n`: an operator of
precedence `n` stops popping there. -/
def Below (n : Nat) (S : List Char) : Prop :=
  ∀ o, S.head? = some o → precedenceOf o < n

/-! ## The operand stack with partial operations -/

/-- The member `top` of `std::stack`: undefined (`none`) on an empty stack. -/
def top? (stack : List Int) : Option Int := stack.head?

/-- The member `pop` of `std::stack`: undefined (`none`) on an empty stack. -/
def pop? (stack : List Int) : Option (List Int) :=
  match stack with
  | [] => none
  | _ :: rest => some rest

/-- One iteration of the loop of `evaluatePostfix`, statement by statement, with
the partial stack operations; `none` is a read or pop of an empty stack. -/
def evalStepRaw (stack : List Int) (token : List Char) : Option (Except String (List Int)) :=
  match token with
  | [] => some (.ok stack)
  | t0 :: _ =>
    if isdigit t0 then
      match stoi token with
      | .error e => some (.error e)
      | .ok v => some (.ok (v :: stack))
    else if stack.length < 2 then some (.error "Invalid expression: not enough operands")
    else
      match top? stack, pop? stack with
      | some operand2, some s1 =>
        match top? s1, pop? s1 with
        | some operand1, some s2 =>
          match applyOp operand1 operand2 t0 with
          | .error e => some (.error e)
          | .ok result => some (.ok (result :: s2))
        | _, _ => none
      | _, _ => none

/-- The loop of `evaluatePostfix` with the partial stack operations. -/
def evalTokensRaw : List Int → List (List Char) → Option (Except String (List Int))
  | stack, [] => some (.ok stack)
  | stack, t :: ts =>
    match evalStepRaw stack t with
    | none => none
    | some (.error e) => some (.error e)
    | some (.ok stack') => evalTokensRaw stack' ts

/-- The function `evaluatePostfix` with the partial stack operations. -/
def evaluatePostfixRaw (expression : List Char) : Option (Except String Int) :=
  match evalTokensRaw [] (split expression) with
  | none => none
  | some (.error e) => some (.error e)
  | some (.ok stack) =>
    if stack.length ≠ 1 then some (.error "Invalid expression: too many operands")
    else
      match top? stack with
      | none => none
      | some v => some (.ok v)


/-- The post-order traversal of the tree as a sequence of one-character tokens. -/
def Expr.postorder : Expr → List Char
  | .num d => [digitChar d]
  | .paren e => e.postorder
  | .bin op l r => l.postorder ++ r.postorder ++ [op.symbol]


/-- The input `a / ( b - c )` for digits `a`, `b`, `c`. -/
def quotientBySub (a b c : Fin 10) : List Char :=
  [digitChar a] ++ " / ( ".toList ++ [digitChar b] ++ " - ".toList ++ [digitChar c]
    ++ " )".toList

/-- The input `( a - b ) / c` for digits `a`, `b`, `c`. -/
def subQuotientBy (a b c : Fin 10) : List Char :=
  "( ".toList ++ [digitChar a] ++ " - ".toList ++ [digitChar b] ++ " ) / ".toList
    ++ [digitChar c]


/-- The characters of the calculator: digits, whitespace, the four operators and the
two parentheses. -/
def isCalcChar (c : Char) : Bool :=
  isdigit c || isspace c || isOperator c || c == '(' || c == ')'

/-- The invariant of the scan on inputs made of calculator characters: the operator
stack holds operators and `(` markers, as many `(` markers as the counter says, and
the output holds spaces, digits and operators. -/
def ScanInv (st : ConvState) : Prop :=
  (∀ o ∈ st.operators, isOperator o = true ∨ o = '(') ∧
  st.operators.count '(' = st.parenthesesBalance ∧
  (∀ c ∈ st.out, c = ' ' ∨ isdigit c = true ∨ isOperator c = true)


namespace Main0

/-- The function `precedence` of `main_0.cpp`. -/
def precedenceOf (op : Char) : Nat :=
  if op = '+' ∨ op = '-' then 1
  else if op = '*' ∨ op = '/' then 2
  else 0

/-- The function `applyOp` of `main_0.cpp`: the `switch` has no default case and an
unknown operator falls through to `return 0`. -/
def applyOp (a b : Int) (op : Char) : Except String Int :=
  if op = '+' then .ok (a + b)
  else if op = '-' then .ok (a - b)
  else if op = '*' then .ok (a * b)
  else if op = '/' then
    if b = 0 then .error "Division by zero" else .ok (Int.tdiv a b)
  else .ok 0

/-- The loop of the `')'` branch of `main_0.cpp`. -/
def popToOpen : List Char → List Char → List Char × List Char
  | [], out => ([], out)
  | o :: os, out =>
    if o ≠ '(' then popToOpen os (out ++ [' ', o]) else (o :: os, out)

/-- The loop of the operator branch of `main_0.cpp`. -/
def popPrec (c : Char) : List Char → List Char → List Char × List Char
  | [], out => ([], out)
  | o :: os, out =>
    if precedenceOf o ≥ precedenceOf c then popPrec c os (out ++ [' ', o])
    else (o :: os, out)

/-- The final loop of `infixToPostfix` of `main_0.cpp`. -/
def popAll : List Char → List Char → List Char
  | [], out => out
  | o :: os, out => popAll os (out ++ [' ', o])

/-- One iteration of the `for` loop of `infixToPostfix` of `main_0.cpp`; as in
`calculate.cpp`, `operators.pop()` on an empty stack leaves it empty. -/
def convStep (st : ConvState) (c : Char) : Except String ConvState :=
  if isspace c then .ok st
  else if isdigit c then
    if !st.expectOperand then .error "Invalid expression: Unexpected operand"
    else .ok { st with out := st.out ++ [c], expectOperand := false }
  else if c = '(' then
    .ok { st with operators := c :: st.operators,
                  parenthesesBalance := st.parenthesesBalance + 1,
                  expectOperand := true }
  else if c = ')' then
    if st.parenthesesBalance = 0 then .error "Invalid expression: Mismatched parentheses"
    else
      let r := popToOpen st.operators st.out
      .ok { operators := r.1.tail, out := r.2,
            parenthesesBalance := st.parenthesesBalance - 1,
            expectOperand := false }
  else
    if st.expectOperand then .error "Invalid expression: Unexpected operator"
    else
      let r := popPrec c st.operators st.out
      .ok { st with operators := c :: r.1, out := r.2 ++ [' '],
                    expectOperand := true }

/-- The `for` loop of `infixToPostfix` of `main_0.cpp`. -/
def convScan : ConvState → List Char → Except String ConvState
  | st, [] => .ok st
  | st, c :: cs =>
    match convStep st c with
    | .error e => .error e
    | .ok st' => convScan st' cs

/-- The function `infixToPostfix` of `main_0.cpp`. -/
def infixToPostfix (expression : List Char) : Except String (List Char) :=
  match convScan convInit expression with
  | .error e => .error e
  | .ok st =>
    if st.parenthesesBalance ≠ 0 then .error "Invalid expression: Mismatched parentheses"
    else .ok (popAll st.operators st.out)

/-- One iteration of the loop of `evaluatePostfix` of `main_0.cpp`: the two operands
are read and popped with no check of the stack size. -/
def evalStep (stack : List Int) (token : List Char) : Option (Except String (List Int)) :=
  match token with
  | [] => some (.ok stack)
  | t0 :: _ =>
    if isdigit t0 then
      match stoi token with
      | .error e => some (.error e)
      | .ok v => some (.ok (v :: stack))
    else
      match top? stack, pop? stack with
      | some operand2, some s1 =>
        match top? s1, pop? s1 with
        | some operand1, some s2 =>
          match applyOp operand1 operand2 t0 with
          | .error e => some (.error e)
          | .ok result => some (.ok (result :: s2))
        | _, _ => none
      | _, _ => none

/-- The loop of `evaluatePostfix` of `main_0.cpp`. -/
def evalTokens : List Int → List (List Char) → Option (Except String (List Int))
  | stack, [] => some (.ok stack)
  | stack, t :: ts =>
    match evalStep stack t with
    | none => none
    | some (.error e) => some (.error e)
    | some (.ok stack') => evalTokens stack' ts

/-- The function `evaluatePostfix` of `main_0.cpp`. -/
def evaluatePostfix (expression : List Char) : Option (Except String Int) :=
  match evalTokens [] (split expression) with
  | none => none
  | some (.error e) => some (.error e)
  | some (.ok stack) =>
    if stack.length ≠ 1 then some (.error "Invalid expression: too many operands")
    else
      match top? stack with
      | none => none
      | some v => some (.ok v)

/-- The conversion of `main_0.cpp` followed by its evaluation; an exception thrown by
the conversion ends the run. -/
def calculate (expression : List Char) : Option (Except String Int) :=
  match infixToPostfix expression with
  | .error e => some (.error e)
  | .ok p => evaluatePostfix p

end Main0


/-! ## Values on the operand stack and 32-bit arithmetic -/

/-- The values that the loop of `evaluatePostfix` pushes on the operand stack, in
order: every iteration that does not fail ends with one push, the new top. -/
def evalPushes : List Int → List (List Char) → List Int
  | _, [] => []
  | stack, t :: ts =>
    match evalStep stack t with
    | .error _ => []
    | .ok stack' => stack'.head?.toList ++ evalPushes stack' ts

/-- The value of a mathematical integer as a 32-bit two's-complement `int`. -/
def wrap32 (x : Int) : Int := (x + 2147483648) % 4294967296 - 2147483648

/-- The function `applyOp` with the arithmetic of a 32-bit `int`, an overflowing
result wrapping around. -/
def applyOp32 (a b : Int) (op : Char) : Except String Int :=
  if op = '+' then .ok (wrap32 (a + b))
  else if op = '-' then .ok (wrap32 (a - b))
  else if op = '*' then .ok (wrap32 (a * b))
  else if op = '/' then
    if b = 0 then .error "Division by zero" else .ok (wrap32 (Int.tdiv a b))
  else .error "Invalid operator"

/-- One iteration of the loop of `evaluatePostfix` with 32-bit arithmetic. -/
def evalStep32 (stack : List Int) (token : List Char) : Except String (List Int) :=
  match token with
  | [] => .ok stack
  | t0 :: _ =>
    if isdigit t0 then
      match stoi token with
      | .error e => .error e
      | .ok v => .ok (v :: stack)
    else
      match stack with
      | operand2 :: operand1 :: rest =>
        match applyOp32 operand1 operand2 t0 with
        | .error e => .error e
        | .ok result => .ok (result :: rest)
      | _ => .error "Invalid expression: not enough operands"

/-- The loop of `evaluatePostfix` with 32-bit arithmetic. -/
def evalTokens32 : List Int → List (List Char) → Except String (List Int)
  | stack, [] => .ok stack
  | stack, t :: ts =>
    match evalStep32 stack t with
    | .error e => .error e
    | .ok stack' => evalTokens32 stack' ts

/-- The function `evaluatePostfix` with 32-bit arithmetic. -/
def evaluatePostfix32 (expression : List Char) : Except String Int :=
  match evalTokens32 [] (split expression) with
  | .error e => .error e
  | .ok stack =>
    match stack with
    | [v] => .ok v
    | _ => .error "Invalid expression: too many operands"

/-- The number of operands of an expression. -/
def Expr.operands : Expr → Nat
  | .num _ => 1
  | .paren e => e.operands
  | .bin _ l r => l.operands + r.operands

/-- The values of the subexpressions in the order of their evaluation, up to the
first division by zero. -/
def Expr.pushes : Expr → List Int
  | .num d => [(d.val : Int)]
  | .paren e => e.pushes
  | .bin op l r =>
    l.pushes ++
      match l.value with
      | none => []
      | some a =>
        r.pushes ++
          match r.value with
          | none => []
          | some b => (op.apply a b).toList

/-- The parse tree of `9 * 9 * 9 * 9 * 9 * 9 * 9 * 9 * 9 * 9`. -/
def tenNines : Expr :=
  .bin .mul (.bin .mul (.bin .mul (.bin .mul (.bin .mul (.bin .mul (.bin .mul (.bin .mul
    (.bin .mul (.num 9) (.num 9)) (.num 9)) (.num 9)) (.num 9)) (.num 9)) (.num 9))
    (.num 9)) (.num 9)) (.num 9)


/-! ## The evaluator with the arithmetic of the machine -/

/-- The smallest `int`. -/
def INT_MIN : Int := -2147483648

/-- The function `applyOp` of `calculate.cpp` with the arithmetic of a 32-bit `int`:
the results of `+`, `-` and `*` wrap around; the quotient `INT_MIN / -1`, which does
not fit in an `int`, is undefined (`none`: the division instruction traps on x86).
A quotient of two `int` values other than that one fits in an `int`. -/
def applyOpM (a b : Int) (op : Char) : Option (Except String Int) :=
  if op = '+' then some (.ok (wrap32 (a + b)))
  else if op = '-' then some (.ok (wrap32 (a - b)))
  else if op = '*' then some (.ok (wrap32 (a * b)))
  else if op = '/' then
    if b = 0 then some (.error "Division by zero")
    else if a = INT_MIN ∧ b = -1 then none
    else some (.ok (Int.tdiv a b))
  else some (.error "Invalid operator")

/-- One iteration of the loop of `evaluatePostfix` with the arithmetic of the
machine. -/
def evalStepM (stack : List Int) (token : List Char) : Option (Except String (List Int)) :=
  match token with
  | [] => some (.ok stack)
  | t0 :: _ =>
    if isdigit t0 then
      match stoi token with
      | .error e => some (.error e)
      | .ok v => some (.ok (v :: stack))
    else
      match stack with
      | operand2 :: operand1 :: rest =>
        match applyOpM operand1 operand2 t0 with
        | none => none
        | some (.error e) => some (.error e)
        | some (.ok result) => some (.ok (result :: rest))
      | _ => some (.error "Invalid expression: not enough operands")

/-- The loop of `evaluatePostfix` with the arithmetic of the machine. -/
def evalTokensM : List Int → List (List Char) → Option (Except String (List Int))
  | stack, [] => some (.ok stack)
  | stack, t :: ts =>
    match evalStepM stack t with
    | none => none
    | some (.error e) => some (.error e)
    | some (.ok stack') => evalTokensM stack' ts

/-- The function `evaluatePostfix` of `calculate.cpp` with the arithmetic of the
machine. -/
def evaluatePostfixM (expression : List Char) : Option (Except String Int) :=
  match evalTokensM [] (split expression) with
  | none => none
  | some (.error e) => some (.error e)
  | some (.ok stack) =>
    match stack with
    | [v] => some (.ok v)
    | _ => some (.error "Invalid expression: too many operands")

/-- What the evaluation of an expression on the machine ends with: a value, a
division whose right operand is zero, or the undefined quotient `INT_MIN / -1`. -/
inductive Outcome where
  | value (v : Int)
  | divisionByZero
  | undefined
deriving DecidableEq, Repr

/-- One operation on the machine: `+`, `-` and `*` wrap around as 32-bit integers,
division truncates toward zero. -/
def Op.applyM : Op → Int → Int → Outcome
  | .add, a, b => .value (wrap32 (a + b))
  | .sub, a, b => .value (wrap32 (a - b))
  | .mul, a, b => .value (wrap32 (a * b))
  | .div, a, b =>
    if b = 0 then .divisionByZero
    else if a = INT_MIN ∧ b = -1 then .undefined
    else .value (Int.tdiv a b)

/-- The evaluation of an expression on the machine, operands left to right and each
operator after its operands: it ends at the first division that is by zero or
undefined. -/
def Expr.machineValue : Expr → Outcome
  | .num d => .value (d.val : Int)
  | .paren e => e.machineValue
  | .bin op l r =>
    match l.machineValue with
    | .value a =>
      match r.machineValue with
      | .value b => op.applyM a b
      | .divisionByZero => .divisionByZero
      | .undefined => .undefined
    | .divisionByZero => .divisionByZero
    | .undefined => .undefined

/-- The product of `n + 1` factors `d`, as in `d * d * d`. -/
def mulChain (d : Fin 10) : Nat → Expr
  | 0 => .num d
  | n + 1 => .bin .mul (mulChain d n) (.num d)


end Calc

open Calc

namespace Calc

/-! ## Characters -/

theorem isspace_digitChar (d : Fin 10) : isspace (digitChar d) = false := by
  fin_cases d <;> decide

theorem isdigit_digitChar (d : Fin 10) : isdigit (digitChar d) = true := by
  fin_cases d <;> decide

theorem isspace_symbol (op : Op) : isspace op.symbol = false := by
  cases op <;> decide

theorem isdigit_symbol (op : Op) : isdigit op.symbol = false := by
  cases op <;> decide

theorem symbol_ne_open (op : Op) : op.symbol ≠ '(' := by
  cases op <;> decide

theorem symbol_ne_close (op : Op) : op.symbol ≠ ')' := by
  cases op <;> decide

theorem precedenceOf_symbol (op : Op) : precedenceOf op.symbol = op.level := by
  cases op <;> decide

theorem Op.one_le_level (op : Op) : 1 ≤ op.level := by
  cases op <;> decide

theorem Expr.level_pos (e : Expr) : 1 ≤ e.level := by
  cases e with
  | num d => simp [Expr.level]
  | paren e => simp [Expr.level]
  | bin op l r => exact op.one_le_level

/-! ## The pop loops -/

theorem popAll_eq (ops out : List Char) : popAll ops out = out ++ flush ops := by
  induction ops generalizing out with
  | nil => simp [popAll, flush]
  | cons o os ih => simp [popAll, flush, ih]

theorem popToOpen_symbols (ops : List Op) (S out : List Char) :
    popToOpen (ops.map Op.symbol ++ '(' :: S) out
      = ('(' :: S, out ++ flush (ops.map Op.symbol)) := by
  induction ops generalizing out with
  | nil => simp [popToOpen, flush]
  | cons o os ih =>
    simp [popToOpen, flush, symbol_ne_open, ih]

theorem popPrec_symbols (c : Char) (ops : List Op) (S out : List Char)
    (h : ∀ o ∈ ops, precedenceOf c ≤ o.level) (hS : Below (precedenceOf c) S) :
    popPrec c (ops.map Op.symbol ++ S) out = (S, out ++ flush (ops.map Op.symbol)) := by
  induction ops generalizing out with
  | nil =>
    cases S with
    | nil => simp [popPrec, flush]
    | cons o os =>
      have : precedenceOf o < precedenceOf c := hS o rfl
      simp [popPrec, flush, Nat.not_le.mpr this]
  | cons o os ih =>
    have h1 : precedenceOf c ≤ precedenceOf o.symbol := by
      rw [precedenceOf_symbol]; exact h o (List.mem_cons_self _ _)
    have h2 : ∀ o ∈ os, precedenceOf c ≤ o.level :=
      fun o' ho => h o' (List.mem_cons_of_mem _ ho)
    simp [popPrec, flush, h1, ih _ h2]

/-! ## Conversion of a well-formed expression -/

theorem convScan_cons_ok {st st' : ConvState} {c : Char} (h : convStep st c = .ok st')
    (cs : List Char) : convScan st (c :: cs) = convScan st' cs := by
  rw [convScan, h]

theorem Expr.pending_level (e : Expr) (hwf : e.WellFormed) :
    ∀ o ∈ e.pending, e.level ≤ o.level := by
  induction e with
  | num d => simp [Expr.pending]
  | paren e _ => simp [Expr.pending]
  | bin op l r _ ihr =>
    obtain ⟨_, hr, _, hlt⟩ := hwf
    intro o ho
    simp only [Expr.pending, List.mem_append, List.mem_singleton] at ho
    rcases ho with ho | ho
    · exact le_trans (le_of_lt hlt) (ihr hr o ho)
    · subst ho; exact le_refl _

theorem convScan_render (e : Expr) (hwf : e.WellFormed) :
    ∀ (S out : List Char) (bal : Nat) (rest : List Char), Below e.level S →
      convScan ⟨S, out, bal, true⟩ (e.render ++ rest)
        = convScan ⟨e.pending.map Op.symbol ++ S, out ++ e.emitted, bal, false⟩ rest := by
  induction e with
  | num d =>
    intro S out bal rest _
    simp [Expr.render, Expr.pending, Expr.emitted, convScan, convStep,
      isspace_digitChar, isdigit_digitChar]
  | paren e ih =>
    intro S out bal rest _
    have hB : Below e.level ('(' :: S) := by
      intro o ho
      simp only [List.head?_cons, Option.some.injEq] at ho
      subst ho
      exact e.level_pos
    have h1 : convStep ⟨S, out, bal, true⟩ '(' = .ok ⟨'(' :: S, out, bal + 1, true⟩ := by
      simp [convStep, show isspace '(' = false by decide, show isdigit '(' = false by decide]
    have h2 : ∀ ops : List Op, convStep ⟨ops.map Op.symbol ++ '(' :: S, out ++ e.emitted, bal + 1, false⟩ ')'
        = .ok ⟨S, out ++ e.emitted ++ flush (ops.map Op.symbol), bal, false⟩ := by
      intro ops
      simp [convStep, show isspace ')' = false by decide, show isdigit ')' = false by decide,
        show (')' : Char) ≠ '(' by decide, popToOpen_symbols]
    have h3 := ih hwf ('(' :: S) out (bal + 1) (')' :: rest) hB
    simp only [Expr.render, List.cons_append, List.append_assoc, List.singleton_append,
      List.nil_append]
    rw [convScan_cons_ok h1, h3, convScan_cons_ok (h2 _)]
    simp [Expr.pending, Expr.emitted]
  | bin op l r ihl ihr =>
    intro S out bal rest hS
    obtain ⟨hl, hr, hle, hlt⟩ := hwf
    have hBl : Below l.level S := fun o ho => lt_of_lt_of_le (hS o ho) hle
    have hBr : Below r.level (op.symbol :: S) := by
      intro o ho
      simp only [List.head?_cons, Option.some.injEq] at ho
      subst ho
      rw [precedenceOf_symbol]; exact hlt
    have hpop := popPrec_symbols op.symbol l.pending S (out ++ l.emitted)
      (fun o ho => by
        rw [precedenceOf_symbol]; exact le_trans hle (l.pending_level hl o ho))
      (by rw [precedenceOf_symbol]; exact hS)
    have h2 : convStep ⟨l.pending.map Op.symbol ++ S, out ++ l.emitted, bal, false⟩ op.symbol
        = .ok ⟨op.symbol :: S,
            out ++ l.emitted ++ flush (l.pending.map Op.symbol) ++ [' '], bal, true⟩ := by
      simp [convStep, isspace_symbol, isdigit_symbol, symbol_ne_open, symbol_ne_close, hpop]
    have h1 := ihl hl S out bal (op.symbol :: (r.render ++ rest)) hBl
    have h3 := ihr hr (op.symbol :: S)
      (out ++ l.emitted ++ flush (l.pending.map Op.symbol) ++ [' ']) bal rest hBr
    simp only [Expr.render, List.cons_append, List.append_assoc] at h1 ⊢
    rw [h1, convScan_cons_ok h2, h3]
    simp [Expr.pending, Expr.emitted]

/-! ## Whitespace in the input -/

theorem convStep_isspace (st : ConvState) (c : Char) (h : isspace c = true) :
    convStep st c = .ok st := by
  simp [convStep, h]

theorem convScan_filter (s : List Char) :
    ∀ st : ConvState, convScan st (s.filter (fun c => !isspace c)) = convScan st s := by
  induction s with
  | nil => intro st; rfl
  | cons c cs ih =>
    intro st
    by_cases h : isspace c = true
    · rw [convScan_cons_ok (convStep_isspace st c h)]
      simp [List.filter, h, ih]
    · have h' : isspace c = false := by simpa using h
      simp only [List.filter, h', Bool.not_false]
      rw [convScan, convScan]
      cases convStep st c with
      | error e => rfl
      | ok st' => exact ih st'

theorem infixToPostfix_filter (s : List Char) :
    infixToPostfix (s.filter (fun c => !isspace c)) = infixToPostfix s := by
  simp [infixToPostfix, convScan_filter]

theorem infixToPostfix_render (e : Expr) (hwf : e.WellFormed) :
    infixToPostfix e.render = .ok (e.emitted ++ flush (e.pending.map Op.symbol)) := by
  have hB : Below e.level [] := by
    intro o ho; simp at ho
  have h := convScan_render e hwf [] [] 0 [] hB
  simp only [List.append_nil, List.nil_append] at h
  simp [infixToPostfix, convInit, h, convScan, convFinish, popAll_eq]

/-! ## Tokens of the output -/

theorem splitAux_space (c : Char) (hc : isspace c = true) (B : List Char) :
    ∀ (A cur : List Char), splitAux cur (A ++ c :: B) = splitAux cur A ++ split B := by
  intro A
  induction A with
  | nil =>
    intro cur
    by_cases h : cur = [] <;> simp [splitAux, split, hc, h]
  | cons a as ih =>
    intro cur
    by_cases ha : isspace a = true
    · by_cases h : cur = [] <;> simp [splitAux, ha, h, ih]
    · simp [splitAux, ha, ih]

theorem split_space (A B : List Char) : split (A ++ ' ' :: B) = split A ++ split B :=
  splitAux_space ' ' (by decide) B A []

theorem split_single (c : Char) (hc : isspace c = false) : split [c] = [[c]] := by
  simp [split, splitAux, hc]

theorem split_symbol_flush (ops : List Op) :
    ∀ A : List Char, split (A ++ flush (ops.map Op.symbol))
      = split A ++ ops.map (fun o => [o.symbol]) := by
  induction ops with
  | nil => intro A; simp [flush]
  | cons o os ih =>
    intro A
    have h := ih [o.symbol]
    simp only [List.singleton_append] at h
    simp only [List.map_cons, flush]
    rw [split_space, h, split_single _ (isspace_symbol o)]
    simp

theorem split_emitted (e : Expr) :
    split e.emitted ++ e.pending.map (fun o => [o.symbol]) = e.rpn := by
  induction e with
  | num d => simp [Expr.emitted, Expr.pending, Expr.rpn, split_single _ (isspace_digitChar d)]
  | paren e ih => simp [Expr.emitted, Expr.pending, Expr.rpn, split_symbol_flush, ih]
  | bin op l r ihl ihr =>
    simp only [Expr.emitted, Expr.pending, Expr.rpn, List.append_assoc, List.singleton_append]
    rw [← List.append_assoc, split_space, split_symbol_flush, ihl, ← ihr]
    simp

/-! ## Evaluation of the post-order traversal -/

theorem evalStep_digitChar (stack : List Int) (d : Fin 10) :
    evalStep stack [digitChar d] = .ok ((d.val : Int) :: stack) := by
  fin_cases d <;> rfl

theorem evalStep_symbol (op : Op) (a b : Int) (stack : List Int) :
    evalStep (b :: a :: stack) [op.symbol]
      = match op.apply a b with
        | some v => .ok (v :: stack)
        | none => .error "Division by zero" := by
  cases op
  · simp [evalStep, applyOp, Op.apply, Op.symbol, show isdigit '+' = false by decide]
  · simp [evalStep, applyOp, Op.apply, Op.symbol, show isdigit '-' = false by decide]
  · simp [evalStep, applyOp, Op.apply, Op.symbol, show isdigit '*' = false by decide]
  · by_cases hb : b = 0 <;>
      simp [evalStep, applyOp, Op.apply, Op.symbol, show isdigit '/' = false by decide, hb]

theorem evalTokens_rpn (e : Expr) :
    ∀ (stack : List Int) (rest : List (List Char)),
      evalTokens stack (e.rpn ++ rest)
        = match e.value with
          | some v => evalTokens (v :: stack) rest
          | none => .error "Division by zero" := by
  induction e with
  | num d =>
    intro stack rest
    simp [Expr.rpn, Expr.value, evalTokens, evalStep_digitChar]
  | paren e ih =>
    intro stack rest
    simpa [Expr.rpn, Expr.value] using ih stack rest
  | bin op l r ihl ihr =>
    intro stack rest
    simp only [Expr.rpn, Expr.value, List.append_assoc]
    rw [ihl]
    cases hl : l.value with
    | none => rfl
    | some a =>
      simp only
      rw [ihr]
      cases hr : r.value with
      | none => rfl
      | some b =>
        simp only [List.singleton_append, evalTokens, evalStep_symbol]
        cases op.apply a b <;> rfl

theorem evaluatePostfix_emitted (e : Expr) :
    evaluatePostfix (e.emitted ++ flush (e.pending.map Op.symbol))
      = match e.value with
        | some v => .ok v
        | none => .error "Division by zero" := by
  have h := evalTokens_rpn e [] []
  rw [List.append_nil] at h
  rw [evaluatePostfix, split_symbol_flush, split_emitted, h]
  cases e.value <;> rfl

theorem calculate_render (e : Expr) (hwf : e.WellFormed) (s : List Char)
    (hs : s.filter (fun c => !isspace c) = e.render) :
    calculate s = match e.value with
      | some v => .ok v
      | none => .error "Division by zero" := by
  rw [calculate, ← infixToPostfix_filter, hs, infixToPostfix_render e hwf]
  exact evaluatePostfix_emitted e

theorem Expr.value_eq_none_iff (e : Expr) : e.value = none ↔ e.hasZeroDivisor = true := by
  induction e with
  | num d => simp [Expr.value, Expr.hasZeroDivisor]
  | paren e ih => simpa [Expr.value, Expr.hasZeroDivisor] using ih
  | bin op l r ihl ihr =>
    simp only [Expr.value, Expr.hasZeroDivisor, Bool.or_eq_true, Bool.and_eq_true,
      decide_eq_true_eq, ← ihl, ← ihr]
    cases hl : l.value with
    | none => simp
    | some a =>
      cases hr : r.value with
      | none => simp
      | some b =>
        cases op <;> simp [Op.apply]

theorem evalStep_divzero (stack : List Int) (t : List Char)
    (h : evalStep stack t = .error "Division by zero") :
    t.head? = some '/' ∧ ∃ a rest, stack = 0 :: a :: rest := by
  cases t with
  | nil => simp [evalStep] at h
  | cons t0 ts =>
    by_cases hd : isdigit t0 = true
    · simp only [evalStep, hd, if_true] at h
      unfold stoi at h
      simp only at h
      split at h
      · rename_i e he
        split at he
        · simp only [Except.error.injEq] at he h
          rw [← he] at h
          exact absurd h (by decide)
        · simp at he
      · simp at h
    · match stack, h with
      | [], h => simp [evalStep, hd] at h
      | [_], h => simp [evalStep, hd] at h
      | b :: a :: rest, h =>
        simp only [evalStep, hd] at h
        unfold applyOp at h
        by_cases h1 : t0 = '+'
        · simp [h1] at h
        by_cases h2 : t0 = '-'
        · simp [h2] at h
        by_cases h3 : t0 = '*'
        · simp [h3] at h
        by_cases h4 : t0 = '/'
        · by_cases hb : b = 0
          · exact ⟨by simp [h4], a, rest, by rw [hb]⟩
          · simp [h4, hb] at h
        · simp [h1, h2, h3, h4] at h

theorem evalTokens_divzero (ts : List (List Char)) :
    ∀ stack : List Int, evalTokens stack ts = .error "Division by zero" →
      ∃ pre tok post a rest, ts = pre ++ tok :: post ∧ tok.head? = some '/' ∧
        evalTokens stack pre = .ok (0 :: a :: rest) := by
  induction ts with
  | nil => intro stack h; simp [evalTokens] at h
  | cons t ts ih =>
    intro stack h
    rw [evalTokens] at h
    cases hs : evalStep stack t with
    | error e =>
      rw [hs] at h
      simp only [Except.error.injEq] at h
      rw [h] at hs
      obtain ⟨h1, a, rest, h2⟩ := evalStep_divzero stack t hs
      exact ⟨[], t, ts, a, rest, rfl, h1, by rw [h2]; rfl⟩
    | ok stack' =>
      rw [hs] at h
      obtain ⟨pre, tok, post, a, rest, h1, h2, h3⟩ := ih stack' h
      refine ⟨t :: pre, tok, post, a, rest, by rw [h1]; rfl, h2, ?_⟩
      rw [evalTokens, hs]
      exact h3

/-! ## End-to-end correctness -/

/-- C1: for every well-formed infix expression over single-digit operands, the four
operators and balanced parentheses, written with any whitespace between its tokens,
whose evaluation never divides by zero, `infixToPostfix` succeeds and
`evaluatePostfix` on its output returns the value of the expression under standard
precedence, left associativity and division truncating toward zero. -/
theorem calculate_wellFormed_value (e : Expr) (s : List Char) (v : Int)
    (hwf : e.WellFormed) (hs : s.filter (fun c => !isspace c) = e.render)
    (hv : e.value = some v) :
    ∃ p, infixToPostfix s = .ok p ∧ evaluatePostfix p = .ok v := by
  refine ⟨e.emitted ++ flush (e.pending.map Op.symbol), ?_, ?_⟩
  · rw [← infixToPostfix_filter, hs, infixToPostfix_render e hwf]
  · rw [evaluatePostfix_emitted, hv]

/-- The expression `3 + 4 * 2 / ( 1 - 5 )` of the tests is well formed, has the value
`1`, and is evaluated to `1`. -/
theorem calculate_wellFormed_value_witness :
    testExpr.WellFormed ∧
    "3 + 4 * 2 / ( 1 - 5 )".toList.filter (fun c => !isspace c)
      = testExpr.render ∧
    testExpr.value = some 1 ∧
    ∃ p, infixToPostfix "3 + 4 * 2 / ( 1 - 5 )".toList = .ok p ∧ evaluatePostfix p = .ok 1 :=
  ⟨by decide, by decide, by decide,
    calculate_wellFormed_value testExpr _ 1 (by decide) (by decide) (by decide)⟩

/-! ## The facade -/

/-- C2: on `8 / 0` and on `3 +` the conversion succeeds and the evaluation fails, yet
`evaluate` returns `true` and stores the default `0` in `result`: it tests the
conversion result a second time instead of the evaluation result. -/
theorem evaluate_reports_success_on_failed_evaluation (result : Int) :
    infixToPostfix "8 / 0".toList = .ok "8 0 /".toList ∧
    evaluatePostfix "8 0 /".toList = .error "Division by zero" ∧
    evaluate "8 / 0".toList result = (true, 0) ∧
    infixToPostfix "3 +".toList = .ok "3  +".toList ∧
    evaluatePostfix "3  +".toList = .error "Invalid expression: not enough operands" ∧
    evaluate "3 +".toList result = (true, 0) :=
  ⟨by decide, by decide, rfl, by decide, by decide, rfl⟩

/-! ## The expressions of the tests -/

/-- C4: converting and evaluating the demo expression `3 + 4 * 2 / ( 1 - 5 ) * 2 * 3`
succeeds and yields `-9`, over the integers and with 32-bit arithmetic alike, and so
not the `-21` that `runTests` asserts. -/
theorem demo_expression_minus_9 :
    infixToPostfix "3 + 4 * 2 / ( 1 - 5 ) * 2 * 3".toList
      = .ok "3 4 2 * 1 5 - / 2 * 3 * +".toList ∧
    evaluatePostfix "3 4 2 * 1 5 - / 2 * 3 * +".toList = .ok (-9) ∧
    demoExpr.WellFormed ∧
    "3 + 4 * 2 / ( 1 - 5 ) * 2 * 3".toList.filter (fun c => !isspace c) = demoExpr.render ∧
    demoExpr.value = some (-9) ∧
    evaluatePostfix32 "3 4 2 * 1 5 - / 2 * 3 * +".toList = .ok (-9) ∧
    calculate "3 + 4 * 2 / ( 1 - 5 ) * 2 * 3".toList ≠ .ok (-21) :=
  ⟨by decide, by decide, by decide, by decide, by decide, by decide, by decide⟩

/-- C5: the conversion of `10 - 5` and of `10 / ( 5 - 3 )` fails at the second digit
of `10` with the unexpected-operand error, so neither yields `5`. -/
theorem ten_minus_five_rejected :
    infixToPostfix "10 - 5".toList = .error "Invalid expression: Unexpected operand" ∧
    infixToPostfix "10 / ( 5 - 3 )".toList
      = .error "Invalid expression: Unexpected operand" :=
  ⟨by decide, by decide⟩

/-- C6: the conversion of `10 / 0` fails at the second digit of `10` with the
unexpected-operand error, so the evaluator is never reached and the error is not
`Division by zero`. -/
theorem ten_div_zero_rejected_by_converter :
    infixToPostfix "10 / 0".toList = .error "Invalid expression: Unexpected operand" ∧
    calculate "10 / 0".toList ≠ .error "Division by zero" :=
  ⟨by decide, by decide⟩

/-! ## The scan of `infixToPostfix` -/

theorem convScan_append (a b : List Char) :
    ∀ st : ConvState, convScan st (a ++ b)
      = match convScan st a with
        | .error e => .error e
        | .ok st1 => convScan st1 b := by
  induction a with
  | nil => intro st; rfl
  | cons c cs ih =>
    intro st
    simp only [List.cons_append, convScan]
    cases convStep st c with
    | error e => rfl
    | ok st1 => exact ih st1

theorem convScan_prefix_ok {a b : List Char} {st st' : ConvState}
    (h : convScan st (a ++ b) = .ok st') :
    ∃ st1, convScan st a = .ok st1 ∧ convScan st1 b = .ok st' := by
  rw [convScan_append] at h
  cases h1 : convScan st a with
  | error e => rw [h1] at h; simp at h
  | ok st1 => rw [h1] at h; exact ⟨st1, rfl, h⟩

theorem convScan_error_split (s : List Char) :
    ∀ (st : ConvState) (m : String), convScan st s = .error m →
      ∃ a c b st1, s = a ++ c :: b ∧ convScan st a = .ok st1 ∧ convStep st1 c = .error m := by
  induction s with
  | nil => intro st m h; simp [convScan] at h
  | cons c cs ih =>
    intro st m h
    rw [convScan] at h
    cases h1 : convStep st c with
    | error e =>
      rw [h1] at h
      simp only [Except.error.injEq] at h
      exact ⟨[], c, cs, st, rfl, rfl, by rw [h1, h]⟩
    | ok st1 =>
      rw [h1] at h
      obtain ⟨a, c', b, st2, h2, h3, h4⟩ := ih st1 m h
      exact ⟨c :: a, c', b, st2, by rw [h2]; rfl, by rw [convScan, h1]; exact h3, h4⟩

theorem convStep_digit (st : ConvState) (d : Char) (hd : isdigit d = true)
    (hs : isspace d = false) :
    convStep st d = if st.expectOperand then
        .ok { st with out := st.out ++ [d], expectOperand := false }
      else .error "Invalid expression: Unexpected operand" := by
  cases h : st.expectOperand <;> simp [convStep, hd, hs, h]

theorem isspace_of_isdigit {c : Char} (h : isdigit c = true) : isspace c = false := by
  simp only [isdigit, Bool.and_eq_true, decide_eq_true_eq] at h
  simp only [isspace, Bool.or_eq_false_iff, Bool.and_eq_false_iff, beq_eq_false_iff_ne,
    decide_eq_false_iff_not]
  omega

theorem convStep_open (st : ConvState) :
    convStep st '(' = .ok { st with operators := '(' :: st.operators,
                                    parenthesesBalance := st.parenthesesBalance + 1,
                                    expectOperand := true } := by
  simp [convStep, show isspace '(' = false by decide, show isdigit '(' = false by decide]

theorem convStep_close (st : ConvState) :
    convStep st ')' = if st.parenthesesBalance = 0 then
        .error "Invalid expression: Mismatched parentheses"
      else .ok { operators := (popToOpen st.operators st.out).1.tail,
                 out := (popToOpen st.operators st.out).2,
                 parenthesesBalance := st.parenthesesBalance - 1,
                 expectOperand := false } := by
  simp [convStep, show isspace ')' = false by decide, show isdigit ')' = false by decide,
    show (')' : Char) ≠ '(' by decide]

theorem convStep_other (st : ConvState) (c : Char) (hs : isspace c = false)
    (hd : isdigit c = false) (ho : c ≠ '(') (hc : c ≠ ')') :
    convStep st c = if st.expectOperand then
        .error "Invalid expression: Unexpected operator"
      else .ok { st with operators := c :: (popPrec c st.operators st.out).1,
                         out := (popPrec c st.operators st.out).2 ++ [' '],
                         expectOperand := true } := by
  simp [convStep, hs, hd, ho, hc]

theorem char_cases (c : Char) :
    isspace c = true ∨ isdigit c = true ∨ c = '(' ∨ c = ')' ∨
      (isspace c = false ∧ isdigit c = false ∧ c ≠ '(' ∧ c ≠ ')') := by
  by_cases h1 : isspace c = true
  · exact Or.inl h1
  by_cases h2 : isdigit c = true
  · exact Or.inr (Or.inl h2)
  by_cases h3 : c = '('
  · exact Or.inr (Or.inr (Or.inl h3))
  by_cases h4 : c = ')'
  · exact Or.inr (Or.inr (Or.inr (Or.inl h4)))
  · exact Or.inr (Or.inr (Or.inr (Or.inr ⟨by simpa using h1, by simpa using h2, h3, h4⟩)))

theorem convStep_expectOperand {st st' : ConvState} {c : Char}
    (h : convStep st c = .ok st') (hs : isspace c = false) :
    st'.expectOperand = (!isdigit c && c != ')') := by
  rcases char_cases c with h1 | h1 | h1 | h1 | ⟨_, h2, h3, h4⟩
  · rw [hs] at h1; simp at h1
  · rw [convStep_digit st c h1 hs] at h
    split at h
    · simp only [Except.ok.injEq] at h
      rw [← h]; simp [h1]
    · simp at h
  · subst h1
    rw [convStep_open] at h
    simp only [Except.ok.injEq] at h
    rw [← h]; simp [show isdigit '(' = false by decide]
  · subst h1
    rw [convStep_close] at h
    split at h
    · simp at h
    · simp only [Except.ok.injEq] at h
      rw [← h]; simp
  · rw [convStep_other st c hs h2 h3 h4] at h
    split at h
    · simp at h
    · simp only [Except.ok.injEq] at h
      rw [← h]; simp [h2, h4]

theorem lastToken_cons (c : Char) (cs : List Char) :
    lastToken (c :: cs)
      = if isspace c then lastToken cs else some ((lastToken cs).getD c) := by
  unfold lastToken
  by_cases h : isspace c = true
  · simp [List.filter, h]
  · have h' : isspace c = false := by simpa using h
    simp only [List.filter, h', Bool.not_false, Bool.false_eq_true, if_false]
    cases hf : cs.filter (fun c => !isspace c) with
    | nil => simp
    | cons x xs =>
      obtain ⟨y, hy⟩ : ∃ y, (x :: xs).getLast? = some y :=
        ⟨_, List.getLast?_eq_getLast _ (List.cons_ne_nil _ _)⟩
      simp [List.getLast?_cons_cons, hy]

theorem expectOperand_after (p : List Char) :
    ∀ st st' : ConvState, convScan st p = .ok st' →
      st'.expectOperand = match lastToken p with
        | none => st.expectOperand
        | some c => (!isdigit c && c != ')') := by
  induction p with
  | nil =>
    intro st st' h
    simp only [convScan, Except.ok.injEq] at h
    simp [lastToken, h]
  | cons c cs ih =>
    intro st st' h
    rw [convScan] at h
    cases h1 : convStep st c with
    | error e => rw [h1] at h; simp at h
    | ok st1 =>
      rw [h1] at h
      have h2 := ih st1 st' h
      rw [lastToken_cons]
      by_cases hs : isspace c = true
      · rw [convStep_isspace st c hs] at h1
        simp only [Except.ok.injEq] at h1
        simp only [hs, if_true]
        rw [h1]; exact h2
      · have hs' : isspace c = false := by simpa using hs
        simp only [hs', Bool.false_eq_true, if_false]
        cases hl : lastToken cs with
        | none =>
          rw [hl] at h2
          simp only [Option.getD_none]
          rw [h2]; exact convStep_expectOperand h1 hs'
        | some x =>
          rw [hl] at h2
          simpa using h2

theorem isOperator_cases {c : Char} (h : isOperator c = true) :
    c = '+' ∨ c = '-' ∨ c = '*' ∨ c = '/' := by
  simpa [isOperator, or_assoc] using h

theorem isOperator_other {c : Char} (h : isOperator c = true) :
    isspace c = false ∧ isdigit c = false ∧ c ≠ '(' ∧ c ≠ ')' := by
  rcases isOperator_cases h with h | h | h | h <;> subst h <;> decide

theorem infixToPostfix_step_error {p r : List Char} {c : Char} {st : ConvState} {m : String}
    (hscan : convScan convInit p = .ok st) (hstep : convStep st c = .error m) :
    infixToPostfix (p ++ c :: r) = .error m := by
  simp [infixToPostfix, convScan_append, hscan, convScan, hstep]

theorem lastToken_append_token (a w : List Char) (d : Char) (hd : isspace d = false)
    (hw : ∀ c ∈ w, isspace c = true) : lastToken (a ++ d :: w) = some d := by
  have hf : w.filter (fun c => !isspace c) = [] := by
    rw [List.filter_eq_nil_iff]
    intro c hc
    simp [hw c hc]
  simp [lastToken, List.filter_append, List.filter, hd, hf]

/-! ## Unexpected operator and unexpected operand -/

/-- C8: for every prefix `p` that `infixToPostfix` scans without error and that
leaves the converter expecting an operand (its flag is set; or `p` has no token; or
the last token of `p`, ignoring whitespace, is an operator or `(`), every operator
symbol `o` and every suffix `r`, `infixToPostfix (p o r)` fails with
`Invalid expression: Unexpected operator`. -/
theorem unexpected_operator (p r : List Char) (o : Char) (st : ConvState)
    (hscan : convScan convInit p = .ok st) (ho : isOperator o = true)
    (hend : st.expectOperand = true ∨ lastToken p = none ∨
      ∃ c, lastToken p = some c ∧ (isOperator c = true ∨ c = '(')) :
    infixToPostfix (p ++ o :: r) = .error "Invalid expression: Unexpected operator" := by
  have hflag : st.expectOperand = true := by
    have h := expectOperand_after p convInit st hscan
    rcases hend with h1 | h1 | ⟨c, h1, h2⟩
    · exact h1
    · rw [h1] at h; exact h
    · rw [h1] at h
      rw [h]
      rcases h2 with h2 | h2
      · obtain ⟨_, h3, _, h4⟩ := isOperator_other h2
        simp [h3, h4]
      · subst h2; decide
  obtain ⟨h1, h2, h3, h4⟩ := isOperator_other ho
  apply infixToPostfix_step_error hscan
  rw [convStep_other st o h1 h2 h3 h4, hflag]
  rfl

/-- The inputs `3 + + 4` (prefix `3 + `) and `* 2` (empty prefix, a leading operator)
fail with the unexpected-operator error. -/
theorem unexpected_operator_witness :
    infixToPostfix "3 + + 4".toList = .error "Invalid expression: Unexpected operator" ∧
    infixToPostfix "* 2".toList = .error "Invalid expression: Unexpected operator" :=
  ⟨unexpected_operator "3 + ".toList " 4".toList '+'
      ⟨['+'], "3 ".toList, 0, true⟩ (by decide) (by decide)
      (Or.inr (Or.inr ⟨'+', by decide, Or.inl (by decide)⟩)),
    unexpected_operator [] " 2".toList '*' convInit (by decide) (by decide)
      (Or.inr (Or.inl (by decide)))⟩

/-- C9: for every prefix `p` that `infixToPostfix` scans without error and that
leaves the converter expecting an operator (its flag is cleared; or the last token
of `p`, ignoring whitespace, is a digit or `)`), every digit `d` and every suffix
`r`, `infixToPostfix (p d r)` fails with `Invalid expression: Unexpected operand`;
and no input that contains two digits with only whitespace or nothing between them
is converted successfully. -/
theorem unexpected_operand :
    (∀ (p r : List Char) (d : Char) (st : ConvState),
      convScan convInit p = .ok st → isdigit d = true →
      (st.expectOperand = false ∨
        ∃ c, lastToken p = some c ∧ (isdigit c = true ∨ c = ')')) →
      infixToPostfix (p ++ d :: r) = .error "Invalid expression: Unexpected operand") ∧
    (∀ (a w b : List Char) (d1 d2 : Char), isdigit d1 = true → isdigit d2 = true →
      (∀ c ∈ w, isspace c = true) →
      ∀ q, infixToPostfix (a ++ d1 :: (w ++ d2 :: b)) ≠ .ok q) := by
  have part1 : ∀ (p r : List Char) (d : Char) (st : ConvState),
      convScan convInit p = .ok st → isdigit d = true →
      (st.expectOperand = false ∨
        ∃ c, lastToken p = some c ∧ (isdigit c = true ∨ c = ')')) →
      infixToPostfix (p ++ d :: r) = .error "Invalid expression: Unexpected operand" := by
    intro p r d st hscan hd hend
    have hflag : st.expectOperand = false := by
      have h := expectOperand_after p convInit st hscan
      rcases hend with h1 | ⟨c, h1, h2⟩
      · exact h1
      · rw [h1] at h
        rw [h]
        rcases h2 with h2 | h2
        · simp [h2]
        · subst h2; decide
    apply infixToPostfix_step_error hscan
    rw [convStep_digit st d hd (isspace_of_isdigit hd), hflag]
    rfl
  refine ⟨part1, ?_⟩
  intro a w b d1 d2 h1 h2 hw q hq
  have hscan : ∃ st, convScan convInit (a ++ d1 :: (w ++ d2 :: b)) = .ok st := by
    unfold infixToPostfix at hq
    cases h : convScan convInit (a ++ d1 :: (w ++ d2 :: b)) with
    | error e => rw [h] at hq; simp at hq
    | ok st => exact ⟨st, rfl⟩
  obtain ⟨st, hst⟩ := hscan
  have hre : a ++ d1 :: (w ++ d2 :: b) = (a ++ d1 :: w) ++ d2 :: b := by simp
  rw [hre] at hst hq
  obtain ⟨st1, hp, _⟩ := convScan_prefix_ok hst
  have herr := part1 (a ++ d1 :: w) b d2 st1 hp h2
    (Or.inr ⟨d1, lastToken_append_token a w d1 (isspace_of_isdigit h1) hw, Or.inl h1⟩)
  rw [herr] at hq
  simp at hq

/-- The input `3 4 +` fails at `4` with the unexpected-operand error, and the input
`10 - 5`, with the two adjacent digits of `10`, is not converted. -/
theorem unexpected_operand_witness :
    infixToPostfix "3 4 +".toList = .error "Invalid expression: Unexpected operand" ∧
    ∀ q, infixToPostfix "10 - 5".toList ≠ .ok q :=
  ⟨unexpected_operand.1 "3 ".toList " +".toList '4' ⟨[], ['3'], 0, false⟩
      (by decide) (by decide) (Or.inr ⟨'3', by decide, Or.inl (by decide)⟩),
    unexpected_operand.2 [] [] " - 5".toList '1' '0' (by decide) (by decide)
      (by simp)⟩

/-! ## Parentheses -/

theorem convStep_balance {st st' : ConvState} {c : Char} (h : convStep st c = .ok st') :
    st'.parenthesesBalance + (if c = ')' then 1 else 0)
      = st.parenthesesBalance + (if c = '(' then 1 else 0) := by
  rcases char_cases c with h1 | h1 | h1 | h1 | ⟨h1, h2, h3, h4⟩
  · have ho : c ≠ '(' := by rintro rfl; exact absurd h1 (by decide)
    have hc : c ≠ ')' := by rintro rfl; exact absurd h1 (by decide)
    rw [convStep_isspace st c h1] at h
    simp only [Except.ok.injEq] at h
    simp [ho, hc, h]
  · have ho : c ≠ '(' := by rintro rfl; exact absurd h1 (by decide)
    have hc : c ≠ ')' := by rintro rfl; exact absurd h1 (by decide)
    rw [convStep_digit st c h1 (isspace_of_isdigit h1)] at h
    split at h
    · simp only [Except.ok.injEq] at h
      simp [ho, hc, ← h]
    · simp at h
  · subst h1
    rw [convStep_open] at h
    simp only [Except.ok.injEq] at h
    simp [← h]
  · subst h1
    rw [convStep_close] at h
    split at h
    · simp at h
    · rename_i hb
      simp only [Except.ok.injEq] at h
      simp [← h]
      omega
  · rw [convStep_other st c h1 h2 h3 h4] at h
    split at h
    · simp at h
    · simp only [Except.ok.injEq] at h
      simp [h3, h4, ← h]

theorem convScan_balance (s : List Char) :
    ∀ st st' : ConvState, convScan st s = .ok st' →
      st'.parenthesesBalance + s.count ')' = st.parenthesesBalance + s.count '(' := by
  induction s with
  | nil =>
    intro st st' h
    simp only [convScan, Except.ok.injEq] at h
    simp [h]
  | cons c cs ih =>
    intro st st' h
    rw [convScan] at h
    cases h1 : convStep st c with
    | error e => rw [h1] at h; simp at h
    | ok st1 =>
      rw [h1] at h
      have h2 := ih st1 st' h
      have h3 := convStep_balance h1
      simp only [List.count_cons, beq_iff_eq]
      omega

theorem convStep_error_cases {st : ConvState} {c : Char} {m : String}
    (h : convStep st c = .error m) :
    m = "Invalid expression: Unexpected operand" ∨
    (m = "Invalid expression: Mismatched parentheses" ∧ c = ')' ∧
      st.parenthesesBalance = 0) ∨
    m = "Invalid expression: Unexpected operator" := by
  rcases char_cases c with h1 | h1 | h1 | h1 | ⟨h1, h2, h3, h4⟩
  · rw [convStep_isspace st c h1] at h; simp at h
  · rw [convStep_digit st c h1 (isspace_of_isdigit h1)] at h
    split at h
    · simp at h
    · simp only [Except.error.injEq] at h
      exact Or.inl h.symm
  · subst h1
    rw [convStep_open] at h; simp at h
  · subst h1
    rw [convStep_close] at h
    split at h
    · rename_i hb
      simp only [Except.error.injEq] at h
      exact Or.inr (Or.inl ⟨h.symm, rfl, hb⟩)
    · simp at h
  · rw [convStep_other st c h1 h2 h3 h4] at h
    split at h
    · simp only [Except.error.injEq] at h
      exact Or.inr (Or.inr h.symm)
    · simp at h

theorem infixToPostfix_ok_scan {s p : List Char} (h : infixToPostfix s = .ok p) :
    ∃ st, convScan convInit s = .ok st ∧ st.parenthesesBalance = 0 := by
  unfold infixToPostfix at h
  cases h1 : convScan convInit s with
  | error e => rw [h1] at h; simp at h
  | ok st =>
    rw [h1] at h
    refine ⟨st, rfl, ?_⟩
    by_contra hb
    simp [convFinish, hb] at h

theorem infixToPostfix_ok_balanced {s p : List Char} (h : infixToPostfix s = .ok p) :
    Balanced s := by
  obtain ⟨st, hscan, hb⟩ := infixToPostfix_ok_scan h
  constructor
  · intro n
    have hsplit : convScan convInit (s.take n ++ s.drop n) = .ok st := by
      rw [List.take_append_drop]; exact hscan
    obtain ⟨st1, h1, _⟩ := convScan_prefix_ok hsplit
    have h2 := convScan_balance _ _ _ h1
    simp only [convInit] at h2
    omega
  · have h2 := convScan_balance _ _ _ hscan
    simp only [convInit] at h2
    omega

theorem infixToPostfix_mismatched_unbalanced {s : List Char}
    (h : infixToPostfix s = .error "Invalid expression: Mismatched parentheses") :
    ¬ Balanced s := by
  intro hbal
  unfold infixToPostfix at h
  cases h1 : convScan convInit s with
  | error e =>
    rw [h1] at h
    simp only [Except.error.injEq] at h
    subst h
    obtain ⟨a, c, b, st1, hs, hscan, hstep⟩ := convScan_error_split s _ _ h1
    rcases convStep_error_cases hstep with h2 | ⟨_, hc, hb⟩ | h2
    · exact absurd h2 (by decide)
    · have h3 := convScan_balance _ _ _ hscan
      simp only [convInit] at h3
      have h4 := hbal.1 (a.length + 1)
      have h5 : s.take (a.length + 1) = a ++ [c] := by
        rw [hs]; simp [List.take_append_eq_append_take]
      rw [h5, hc] at h4
      simp at h4
      omega
    · exact absurd h2 (by decide)
  | ok st =>
    rw [h1] at h
    have h3 := convScan_balance _ _ _ h1
    simp only [convInit] at h3
    have h4 := hbal.2
    by_cases hb : st.parenthesesBalance = 0
    · simp [convFinish, hb] at h
    · omega

theorem infixToPostfix_error_cases {s : List Char} {m : String}
    (h : infixToPostfix s = .error m) :
    m = "Invalid expression: Unexpected operand" ∨
    m = "Invalid expression: Mismatched parentheses" ∨
    m = "Invalid expression: Unexpected operator" := by
  unfold infixToPostfix at h
  cases h1 : convScan convInit s with
  | error e =>
    rw [h1] at h
    simp only [Except.error.injEq] at h
    subst h
    obtain ⟨a, c, b, st1, _, _, hstep⟩ := convScan_error_split s _ _ h1
    rcases convStep_error_cases hstep with h2 | ⟨h2, _, _⟩ | h2
    · exact Or.inl h2
    · exact Or.inr (Or.inl h2)
    · exact Or.inr (Or.inr h2)
  | ok st =>
    rw [h1] at h
    by_cases hb : st.parenthesesBalance = 0
    · simp [convFinish, hb] at h
    · simp [convFinish, hb] at h
      exact Or.inr (Or.inl h.symm)

/-- C10: if `infixToPostfix` succeeds then the parentheses of the input are balanced
(no prefix contains more `)` than `(` and the total counts are equal); and on every
input whose scan ends with neither the unexpected-operand nor the
unexpected-operator error, `infixToPostfix` fails with
`Invalid expression: Mismatched parentheses` if and only if the parentheses are
unbalanced. -/
theorem mismatched_parentheses :
    (∀ s p : List Char, infixToPostfix s = .ok p → Balanced s) ∧
    (∀ s : List Char,
      infixToPostfix s ≠ .error "Invalid expression: Unexpected operand" →
      infixToPostfix s ≠ .error "Invalid expression: Unexpected operator" →
      (infixToPostfix s = .error "Invalid expression: Mismatched parentheses"
        ↔ ¬ Balanced s)) := by
  refine ⟨fun s p h => infixToPostfix_ok_balanced h, ?_⟩
  intro s h1 h2
  constructor
  · exact infixToPostfix_mismatched_unbalanced
  · intro hb
    cases h : infixToPostfix s with
    | ok p => exact absurd (infixToPostfix_ok_balanced h) hb
    | error m =>
      rcases infixToPostfix_error_cases h with h3 | h3 | h3
      · rw [h, h3] at h1; exact absurd rfl h1
      · rw [h3]
      · rw [h, h3] at h2; exact absurd rfl h2

/-- The input `( 3 + 4 ) * 2` is converted, so it is balanced; the inputs `( 3 + 4`
and `3 + 4 )` fail with the mismatched-parentheses error, so they are unbalanced. -/
theorem mismatched_parentheses_witness :
    Balanced "( 3 + 4 ) * 2".toList ∧ ¬ Balanced "( 3 + 4".toList ∧
      ¬ Balanced "3 + 4 )".toList :=
  ⟨mismatched_parentheses.1 "( 3 + 4 ) * 2".toList "3 4 + 2 *".toList (by decide),
    (mismatched_parentheses.2 "( 3 + 4".toList (by decide) (by decide)).mp (by decide),
    (mismatched_parentheses.2 "3 + 4 )".toList (by decide) (by decide)).mp (by decide)⟩

/-! ## What the converter accepts -/

theorem infixCheck_append {s : List Char} (h : InfixString s) :
    ∀ (depth : Nat) (rest : List Char),
      infixCheck true depth (s ++ rest) = infixCheck false depth rest := by
  induction h with
  | digit d hd =>
    intro depth rest
    simp [infixCheck, hd]
  | bin a o b _ ho _ iha ihb =>
    intro depth rest
    rw [List.append_assoc, iha, List.cons_append]
    simp only [infixCheck, ho, if_true]
    exact ihb depth rest
  | paren a _ iha =>
    intro depth rest
    have h1 : '(' :: (a ++ [')']) ++ rest = '(' :: (a ++ ')' :: rest) := by simp
    rw [h1]
    simp only [infixCheck, show isdigit '(' = false by decide, Bool.false_eq_true, if_false,
      if_true]
    rw [iha]
    simp [infixCheck, show isOperator ')' = false by decide]

theorem infixCheck_sound {s : List Char} (h : InfixString s) : infixCheck true 0 s = true := by
  have h1 := infixCheck_append h 0 []
  rw [List.append_nil] at h1
  rw [h1]
  rfl

theorem scan_at_token {s p a b : List Char} {c : Char} (h : infixToPostfix s = .ok p)
    (hs : s.filter (fun c => !isspace c) = a ++ c :: b) :
    ∃ st1 st2, convScan convInit a = .ok st1 ∧ convStep st1 c = .ok st2 ∧
      lastToken a = a.getLast? ∧ isspace c = false := by
  rw [← infixToPostfix_filter, hs] at h
  obtain ⟨st, hscan, _⟩ := infixToPostfix_ok_scan h
  obtain ⟨st1, h1, h2⟩ := convScan_prefix_ok hscan
  have hmem : ∀ x ∈ a ++ c :: b, isspace x = false := by
    intro x hx
    rw [← hs] at hx
    simpa using (List.mem_filter.mp hx).2
  have hfa : a.filter (fun c => !isspace c) = a := by
    rw [List.filter_eq_self]
    intro x hx
    simp [hmem x (List.mem_append_left _ hx)]
  rw [convScan] at h2
  cases h3 : convStep st1 c with
  | error e => rw [h3] at h2; simp at h2
  | ok st2 =>
    exact ⟨st1, st2, h1, h3, by rw [lastToken, hfa],
      hmem c (List.mem_append_right _ (List.mem_cons_self _ _))⟩

/-- C3 (as stated, refuted): the converter succeeds on the empty input, on `( )`,
on `3 +` and on `3 ( 4 )`, none of which, with whitespace removed, is a string of
the grammar `E ::= digit | E op E | ( E )`. -/
theorem converter_accepts_malformed :
    (infixToPostfix "".toList = .ok [] ∧
      ¬ InfixString ("".toList.filter (fun c => !isspace c))) ∧
    (infixToPostfix "( )".toList = .ok [] ∧
      ¬ InfixString ("( )".toList.filter (fun c => !isspace c))) ∧
    (infixToPostfix "3 +".toList = .ok "3  +".toList ∧
      ¬ InfixString ("3 +".toList.filter (fun c => !isspace c))) ∧
    (infixToPostfix "3 ( 4 )".toList = .ok "34".toList ∧
      ¬ InfixString ("3 ( 4 )".toList.filter (fun c => !isspace c))) :=
  ⟨⟨by decide, fun h => absurd (infixCheck_sound h) (by decide)⟩,
    ⟨by decide, fun h => absurd (infixCheck_sound h) (by decide)⟩,
    ⟨by decide, fun h => absurd (infixCheck_sound h) (by decide)⟩,
    ⟨by decide, fun h => absurd (infixCheck_sound h) (by decide)⟩⟩

/-- C3 (amended): if `infixToPostfix` succeeds then, with whitespace removed, every
digit of the input stands where an operand is expected (first, or directly after a
token that is neither a digit nor `)`), every operator symbol stands where an
operator is expected (directly after a digit or `)`), and the parentheses are
balanced. -/
theorem converter_accepts_alternating (s p : List Char) (h : infixToPostfix s = .ok p) :
    (∀ a d b, s.filter (fun c => !isspace c) = a ++ d :: b → isdigit d = true →
      ∀ c, a.getLast? = some c → isdigit c = false ∧ c ≠ ')') ∧
    (∀ a o b, s.filter (fun c => !isspace c) = a ++ o :: b → isOperator o = true →
      ∃ c, a.getLast? = some c ∧ (isdigit c = true ∨ c = ')')) ∧
    Balanced s := by
  refine ⟨?_, ?_, infixToPostfix_ok_balanced h⟩
  · intro a d b hs hd c hc
    obtain ⟨st1, st2, h1, h2, h3, h4⟩ := scan_at_token h hs
    have hflag : st1.expectOperand = true := by
      rw [convStep_digit st1 d hd h4] at h2
      cases hf : st1.expectOperand with
      | true => rfl
      | false => rw [hf] at h2; simp at h2
    have h5 := expectOperand_after a convInit st1 h1
    rw [h3, hc, hflag] at h5
    have h6 : (!isdigit c && c != ')') = true := h5.symm
    simpa using h6
  · intro a o b hs ho
    obtain ⟨st1, st2, h1, h2, h3, h4⟩ := scan_at_token h hs
    obtain ⟨_, k2, k3, k4⟩ := isOperator_other ho
    have hflag : st1.expectOperand = false := by
      rw [convStep_other st1 o h4 k2 k3 k4] at h2
      cases hf : st1.expectOperand with
      | false => rfl
      | true => rw [hf] at h2; simp at h2
    have h5 := expectOperand_after a convInit st1 h1
    rw [h3, hflag] at h5
    cases hl : a.getLast? with
    | none => rw [hl] at h5; simp [convInit] at h5
    | some c =>
      rw [hl] at h5
      refine ⟨c, rfl, ?_⟩
      have h6 : (!isdigit c && c != ')') = false := h5.symm
      by_cases hd : isdigit c = true
      · exact Or.inl hd
      · right
        simpa [hd] using h6

/-- The conversion of `3 + 4 * 2` succeeds, so its digits and operators alternate
and its parentheses are balanced. -/
theorem converter_accepts_alternating_witness :
    infixToPostfix "3 + 4 * 2".toList = .ok "3 4 2 * +".toList ∧
    Balanced "3 + 4 * 2".toList :=
  ⟨by decide,
    (converter_accepts_alternating "3 + 4 * 2".toList "3 4 2 * +".toList (by decide)).2.2⟩

/-! ## The evaluator -/

theorem evalTokens_append (a b : List (List Char)) :
    ∀ stack : List Int, evalTokens stack (a ++ b)
      = match evalTokens stack a with
        | .error e => .error e
        | .ok stack1 => evalTokens stack1 b := by
  induction a with
  | nil => intro stack; rfl
  | cons t ts ih =>
    intro stack
    simp only [List.cons_append, evalTokens]
    cases evalStep stack t with
    | error e => rfl
    | ok stack1 => exact ih stack1

theorem evalTokens_error_split (ts : List (List Char)) :
    ∀ (stack : List Int) (m : String), evalTokens stack ts = .error m →
      ∃ pre tok post stack1, ts = pre ++ tok :: post ∧ evalTokens stack pre = .ok stack1 ∧
        evalStep stack1 tok = .error m := by
  induction ts with
  | nil => intro stack m h; simp [evalTokens] at h
  | cons t ts ih =>
    intro stack m h
    rw [evalTokens] at h
    cases h1 : evalStep stack t with
    | error e =>
      rw [h1] at h
      simp only [Except.error.injEq] at h
      exact ⟨[], t, ts, stack, rfl, rfl, by rw [h1, h]⟩
    | ok stack1 =>
      rw [h1] at h
      obtain ⟨pre, tok, post, stack2, h2, h3, h4⟩ := ih stack1 m h
      exact ⟨t :: pre, tok, post, stack2, by rw [h2]; rfl, by rw [evalTokens, h1]; exact h3, h4⟩

theorem applyOp_error_cases {a b : Int} {c : Char} {m : String}
    (h : applyOp a b c = .error m) : m = "Division by zero" ∨ m = "Invalid operator" := by
  unfold applyOp at h
  by_cases h1 : c = '+'
  · simp [h1] at h
  by_cases h2 : c = '-'
  · simp [h2] at h
  by_cases h3 : c = '*'
  · simp [h3] at h
  by_cases h4 : c = '/'
  · by_cases hb : b = 0
    · simp [h4, hb] at h
      exact Or.inl h.symm
    · simp [h4, hb] at h
  · simp [h1, h2, h3, h4] at h
    exact Or.inr h.symm

theorem stoi_error_cases {t : List Char} {m : String} (h : stoi t = .error m) : m = "stoi" := by
  unfold stoi at h
  simp only at h
  split at h
  · simp only [Except.error.injEq] at h
    exact h.symm
  · simp at h

theorem evalStep_notEnough (stack : List Int) (t : List Char) :
    evalStep stack t = .error "Invalid expression: not enough operands"
      ↔ (∃ c, t.head? = some c ∧ isdigit c = false) ∧ stack.length < 2 := by
  cases t with
  | nil => simp [evalStep]
  | cons t0 ts =>
    by_cases hd : isdigit t0 = true
    · simp only [evalStep, hd, if_true, List.head?_cons, Option.some.injEq, exists_eq_left']
      constructor
      · intro h
        cases hs : stoi (t0 :: ts) with
        | error e =>
          rw [hs] at h
          simp only [Except.error.injEq] at h
          have := stoi_error_cases hs
          rw [this] at h
          exact absurd h (by decide)
        | ok v => rw [hs] at h; simp at h
      · rintro ⟨h, _⟩
        simp at h
    · have hd' : isdigit t0 = false := by simpa using hd
      match stack with
      | [] => simp [evalStep, hd']
      | [_] => simp [evalStep, hd']
      | b :: a :: rest =>
        simp only [evalStep, hd', Bool.false_eq_true, if_false, List.head?_cons,
          Option.some.injEq, exists_eq_left', List.length_cons]
        constructor
        · intro h
          cases ha : applyOp a b t0 with
          | error e =>
            rw [ha] at h
            simp only [Except.error.injEq] at h
            rcases applyOp_error_cases ha with h1 | h1 <;> rw [h1] at h <;>
              exact absurd h (by decide)
          | ok v => rw [ha] at h; simp at h
        · rintro ⟨_, h⟩
          omega

theorem evalStepRaw_eq (stack : List Int) (t : List Char) :
    evalStepRaw stack t = some (evalStep stack t) := by
  cases t with
  | nil => rfl
  | cons t0 ts =>
    by_cases hd : isdigit t0 = true
    · simp only [evalStepRaw, evalStep, hd, if_true]
      cases stoi (t0 :: ts) <;> rfl
    · have hd' : isdigit t0 = false := by simpa using hd
      match stack with
      | [] => simp [evalStepRaw, evalStep, hd']
      | [_] => simp [evalStepRaw, evalStep, hd']
      | b :: a :: rest =>
        simp only [evalStepRaw, evalStep, hd', Bool.false_eq_true, if_false, List.length_cons,
          top?, pop?, List.head?_cons]
        rw [if_neg (by omega)]
        cases applyOp a b t0 <;> rfl

theorem evalTokensRaw_eq (ts : List (List Char)) :
    ∀ stack : List Int, evalTokensRaw stack ts = some (evalTokens stack ts) := by
  induction ts with
  | nil => intro stack; rfl
  | cons t ts ih =>
    intro stack
    rw [evalTokensRaw, evalTokens, evalStepRaw_eq]
    cases evalStep stack t with
    | error e => rfl
    | ok stack1 => exact ih stack1

theorem evaluatePostfixRaw_eq (s : List Char) :
    evaluatePostfixRaw s = some (evaluatePostfix s) := by
  rw [evaluatePostfixRaw, evaluatePostfix, evalTokensRaw_eq]
  cases evalTokens [] (split s) with
  | error e => rfl
  | ok stack =>
    match stack with
    | [] => rfl
    | [_] => rfl
    | _ :: _ :: _ => rfl


/-- C11 (as stated, refuted): on the empty postfix string every token is consumed
without error and no value remains on the operand stack (not more than one), yet
`evaluatePostfix` fails with `Invalid expression: too many operands` and returns no
value. -/
theorem too_many_operands_on_empty_stack :
    evalTokens [] (split "".toList) = .ok [] ∧
    evaluatePostfix "".toList = .error "Invalid expression: too many operands" :=
  ⟨by decide, by decide⟩

/-- C11 (amended): when all tokens of a postfix string are consumed without error
and leave `stack`, `evaluatePostfix` fails with
`Invalid expression: too many operands` exactly when the number of values on the
stack differs from one (more than one, or none), and otherwise returns the sole
remaining value. -/
theorem final_stack_rule (s : List Char) (stack : List Int)
    (h : evalTokens [] (split s) = .ok stack) :
    (evaluatePostfix s = .error "Invalid expression: too many operands"
      ↔ stack.length ≠ 1) ∧
    (∀ v, stack = [v] → evaluatePostfix s = .ok v) := by
  unfold evaluatePostfix
  rw [h]
  match stack with
  | [] => simp
  | [v] => simp
  | _ :: _ :: _ => simp

/-- The postfix string `3 4 +` leaves the single value `7`, which is returned; the
string `3 4` leaves two values and fails with the too-many-operands error. -/
theorem final_stack_rule_witness :
    evaluatePostfix "3 4 +".toList = .ok 7 ∧
    evaluatePostfix "3 4".toList = .error "Invalid expression: too many operands" :=
  ⟨(final_stack_rule "3 4 +".toList [7] (by decide)).2 7 rfl,
    (final_stack_rule "3 4".toList [4, 3] (by decide)).1.mpr (by decide)⟩

/-- C12: `evaluatePostfix` fails with `Invalid expression: not enough operands`
exactly when, after a prefix of the tokens has been evaluated without error, the next
token starts with a character that is not a digit while fewer than two values are on
the operand stack; and the evaluator never reads or pops an empty operand stack: run
with the partial stack operations it always has a defined result, the same one. -/
theorem not_enough_operands :
    (∀ s : List Char,
      evaluatePostfix s = .error "Invalid expression: not enough operands"
        ↔ ∃ pre tok post stack c, split s = pre ++ tok :: post ∧
            evalTokens [] pre = .ok stack ∧ tok.head? = some c ∧ isdigit c = false ∧
            stack.length < 2) ∧
    (∀ s : List Char, evaluatePostfixRaw s = some (evaluatePostfix s)) := by
  refine ⟨?_, evaluatePostfixRaw_eq⟩
  intro s
  constructor
  · intro h
    unfold evaluatePostfix at h
    cases ht : evalTokens [] (split s) with
    | error m =>
      rw [ht] at h
      simp only [Except.error.injEq] at h
      rw [h] at ht
      obtain ⟨pre, tok, post, stack, h1, h2, h3⟩ := evalTokens_error_split _ _ _ ht
      obtain ⟨⟨c, h4, h5⟩, h6⟩ := (evalStep_notEnough stack tok).mp h3
      exact ⟨pre, tok, post, stack, c, h1, h2, h4, h5, h6⟩
    | ok stack =>
      rw [ht] at h
      match stack, h with
      | [], h => simp at h
      | [_], h => simp at h
      | _ :: _ :: _, h => simp at h
  · rintro ⟨pre, tok, post, stack, c, h1, h2, h3, h4, h5⟩
    have h6 := (evalStep_notEnough stack tok).mpr ⟨⟨c, h3, h4⟩, h5⟩
    unfold evaluatePostfix
    rw [h1, evalTokens_append, h2]
    simp only [evalTokens, h6]

/-- The postfix string `3 +` fails at its token `+`, met with one value on the
stack, with the not-enough-operands error, and its run with the partial stack
operations is defined. -/
theorem not_enough_operands_witness :
    evaluatePostfix "3 +".toList = .error "Invalid expression: not enough operands" ∧
    evaluatePostfixRaw "3 +".toList
      = some (.error "Invalid expression: not enough operands") :=
  ⟨(not_enough_operands.1 "3 +".toList).mpr
      ⟨[['3']], ['+'], [], [3], '+', by decide, by decide, by decide, by decide, by decide⟩,
    (not_enough_operands.2 "3 +".toList).trans (by decide)⟩


/-! ## Whitespace and the shape of the output -/

/-- C14: whitespace carries no meaning for the converter: two inputs that are equal
once their whitespace characters are removed, that is, each obtained from the other
by inserting or deleting whitespace at any positions, are converted to the same
postfix string or fail with the same error. -/
theorem whitespace_irrelevant (s s' : List Char)
    (h : s'.filter (fun c => !isspace c) = s.filter (fun c => !isspace c)) :
    infixToPostfix s' = infixToPostfix s := by
  rw [← infixToPostfix_filter s', ← infixToPostfix_filter s, h]

/-- The inputs `3+4*2` and ` 3 +  4 * 2 ` are converted identically. -/
theorem whitespace_irrelevant_witness :
    infixToPostfix " 3 +  4 * 2 ".toList = infixToPostfix "3+4*2".toList :=
  whitespace_irrelevant "3+4*2".toList " 3 +  4 * 2 ".toList (by decide)

theorem flush_append (a b : List Char) : flush (a ++ b) = flush a ++ flush b := by
  induction a with
  | nil => rfl
  | cons x xs ih => simp [flush, ih]

theorem intersperse_cons_flush (h : Char) (t : List Char) :
    List.intersperse ' ' (h :: t) = h :: flush t := by
  induction t generalizing h with
  | nil => simp [flush]
  | cons x xs ih => simp [List.intersperse, flush, ih]

theorem Expr.emitted_postorder (e : Expr) :
    ∃ h t, e.emitted = h :: flush t ∧ e.postorder = (h :: t) ++ e.pending.map Op.symbol := by
  induction e with
  | num d => exact ⟨digitChar d, [], by simp [Expr.emitted, flush], by simp [Expr.postorder, Expr.pending]⟩
  | paren e ih =>
    obtain ⟨h, t, h1, h2⟩ := ih
    refine ⟨h, t ++ e.pending.map Op.symbol, ?_, ?_⟩
    · simp [Expr.emitted, h1, flush_append]
    · simp [Expr.postorder, Expr.pending, h2]
  | bin op l r ihl ihr =>
    obtain ⟨hl, tl, h1, h2⟩ := ihl
    obtain ⟨hr, tr, h3, h4⟩ := ihr
    refine ⟨hl, tl ++ l.pending.map Op.symbol ++ hr :: tr, ?_, ?_⟩
    · simp [Expr.emitted, h1, h3, flush_append, flush]
    · simp [Expr.postorder, Expr.pending, h2, h4]

theorem Expr.emitted_flush_pending (e : Expr) :
    e.emitted ++ flush (e.pending.map Op.symbol) = List.intersperse ' ' e.postorder := by
  obtain ⟨h, t, h1, h2⟩ := e.emitted_postorder
  rw [h1, h2]
  simp only [List.cons_append]
  rw [intersperse_cons_flush, flush_append]

/-- C15: for every well-formed single-digit infix expression with parse tree `e`,
written with any whitespace, `infixToPostfix` returns exactly the post-order
traversal of `e` with one space between consecutive tokens and no leading or
trailing space. -/
theorem converter_postorder (e : Expr) (s : List Char) (hwf : e.WellFormed)
    (hs : s.filter (fun c => !isspace c) = e.render) :
    infixToPostfix s = .ok (List.intersperse ' ' e.postorder) := by
  rw [← infixToPostfix_filter, hs, infixToPostfix_render e hwf, e.emitted_flush_pending]

/-- The inputs `7 - 2 - 3`, `1 + 2 * 3` and `( 1 + 2 ) * 3` are converted to
`7 2 - 3 -`, `1 2 3 * +` and `1 2 + 3 *`. -/
theorem converter_postorder_witness :
    infixToPostfix "7 - 2 - 3".toList = .ok "7 2 - 3 -".toList ∧
    infixToPostfix "1 + 2 * 3".toList = .ok "1 2 3 * +".toList ∧
    infixToPostfix "( 1 + 2 ) * 3".toList = .ok "1 2 + 3 *".toList :=
  ⟨converter_postorder (.bin .sub (.bin .sub (.num 7) (.num 2)) (.num 3))
      "7 - 2 - 3".toList (by decide) (by decide),
    converter_postorder (.bin .add (.num 1) (.bin .mul (.num 2) (.num 3)))
      "1 + 2 * 3".toList (by decide) (by decide),
    converter_postorder (.bin .mul (.paren (.bin .add (.num 1) (.num 2))) (.num 3))
      "( 1 + 2 ) * 3".toList (by decide) (by decide)⟩


/-! ## Division of negative operands -/

theorem filter_quotientBySub (a b c : Fin 10) :
    (quotientBySub a b c).filter (fun x => !isspace x)
      = (Expr.bin .div (.num a) (.paren (.bin .sub (.num b) (.num c)))).render := by
  simp [quotientBySub, Expr.render, Op.symbol, List.filter, isspace_digitChar,
    show isspace ' ' = true by decide, show isspace '/' = false by decide,
    show isspace '(' = false by decide, show isspace ')' = false by decide,
    show isspace '-' = false by decide]

theorem filter_subQuotientBy (a b c : Fin 10) :
    (subQuotientBy a b c).filter (fun x => !isspace x)
      = (Expr.bin .div (.paren (.bin .sub (.num a) (.num b))) (.num c)).render := by
  simp [subQuotientBy, Expr.render, Op.symbol, List.filter, isspace_digitChar,
    show isspace ' ' = true by decide, show isspace '/' = false by decide,
    show isspace '(' = false by decide, show isspace ')' = false by decide,
    show isspace '-' = false by decide]

/-- C16: division truncates toward zero also for negative operands: for all digits
`a`, `b`, `c` with `b < c`, converting and evaluating `a / ( b - c )` yields the
negation of the floor of `a / (c - b)`, and for all digits with `a < b` and `c ≠ 0`,
`( a - b ) / c` yields the negation of the floor of `(b - a) / c`. -/
theorem division_truncates_toward_zero :
    (∀ a b c : Fin 10, b < c →
      ∃ p, infixToPostfix (quotientBySub a b c) = .ok p ∧
        evaluatePostfix p = .ok (-((a.val / (c.val - b.val) : Nat) : Int))) ∧
    (∀ a b c : Fin 10, a < b → c ≠ 0 →
      ∃ p, infixToPostfix (subQuotientBy a b c) = .ok p ∧
        evaluatePostfix p = .ok (-(((b.val - a.val) / c.val : Nat) : Int))) := by
  constructor
  · intro a b c hbc
    apply calculate_wellFormed_value
      (Expr.bin .div (.num a) (.paren (.bin .sub (.num b) (.num c))))
    · simp [Expr.WellFormed, Expr.level, Op.level]
    · exact filter_quotientBySub a b c
    · have hlt : b.val < c.val := hbc
      have hne : (b.val : Int) - (c.val : Int) ≠ 0 := by omega
      have heq : (b.val : Int) - (c.val : Int) = -((c.val - b.val : Nat) : Int) := by omega
      simp only [Expr.value, Op.apply, if_neg hne]
      rw [heq, Int.tdiv_neg, ← Int.ofNat_tdiv]
  · intro a b c hab hc
    apply calculate_wellFormed_value
      (Expr.bin .div (.paren (.bin .sub (.num a) (.num b))) (.num c))
    · simp [Expr.WellFormed, Expr.level, Op.level]
    · exact filter_subQuotientBy a b c
    · have hlt : a.val < b.val := hab
      have hne : (c.val : Int) ≠ 0 := by
        have : c.val ≠ 0 := fun h => hc (Fin.ext h)
        omega
      have heq : (a.val : Int) - (b.val : Int) = -((b.val - a.val : Nat) : Int) := by omega
      simp only [Expr.value, Op.apply, if_neg hne]
      rw [heq, Int.neg_tdiv, ← Int.ofNat_tdiv]

/-- The input `7 / ( 1 - 3 )` yields `-3` (not `-4`), and `( 2 - 9 ) / 2` yields
`-3`. -/
theorem division_truncates_toward_zero_witness :
    (quotientBySub 7 1 3 = "7 / ( 1 - 3 )".toList ∧
      ∃ p, infixToPostfix (quotientBySub 7 1 3) = .ok p ∧ evaluatePostfix p = .ok (-3)) ∧
    (subQuotientBy 2 9 2 = "( 2 - 9 ) / 2".toList ∧
      ∃ p, infixToPostfix (subQuotientBy 2 9 2) = .ok p ∧ evaluatePostfix p = .ok (-3)) :=
  ⟨⟨by decide, division_truncates_toward_zero.1 7 1 3 (by decide)⟩,
    ⟨by decide, division_truncates_toward_zero.2 2 9 2 (by decide) (by decide)⟩⟩


/-! ## The parenthesis counter and the operator stack -/

theorem popToOpen_spec (ops : List Char) :
    ∀ out : List Char, ∃ popped, ops = popped ++ (popToOpen ops out).1 ∧ '(' ∉ popped ∧
      (popToOpen ops out).2 = out ++ flush popped ∧
      ((popToOpen ops out).1 = [] ∨ ∃ r, (popToOpen ops out).1 = '(' :: r) := by
  induction ops with
  | nil => intro out; exact ⟨[], by simp [popToOpen, flush]⟩
  | cons o os ih =>
    intro out
    by_cases ho : o = '('
    · subst ho
      exact ⟨[], by simp [popToOpen, flush]⟩
    · obtain ⟨popped, h1, h2, h3, h4⟩ := ih (out ++ [' ', o])
      refine ⟨o :: popped, ?_, ?_, ?_, ?_⟩
      · simp only [popToOpen, ne_eq, ho, not_false_eq_true, if_true, List.cons_append]
        rw [← h1]
      · simp only [List.mem_cons, not_or]
        exact ⟨fun h => ho h.symm, h2⟩
      · simp only [popToOpen, ne_eq, ho, not_false_eq_true, if_true]
        rw [h3]; simp [flush]
      · simpa only [popToOpen, ne_eq, ho, not_false_eq_true, if_true] using h4

theorem popPrec_spec (c : Char) (ops : List Char) :
    ∀ out : List Char, ∃ popped, ops = popped ++ (popPrec c ops out).1 ∧
      (∀ o ∈ popped, precedenceOf c ≤ precedenceOf o) ∧
      (popPrec c ops out).2 = out ++ flush popped := by
  induction ops with
  | nil => intro out; exact ⟨[], by simp [popPrec, flush]⟩
  | cons o os ih =>
    intro out
    by_cases ho : precedenceOf o ≥ precedenceOf c
    · obtain ⟨popped, h1, h2, h3⟩ := ih (out ++ [' ', o])
      refine ⟨o :: popped, ?_, ?_, ?_⟩
      · simp only [popPrec, ho, if_true, List.cons_append]
        rw [← h1]
      · intro x hx
        rcases List.mem_cons.mp hx with hx | hx
        · rw [hx]; exact ho
        · exact h2 x hx
      · simp only [popPrec, ho, if_true]
        rw [h3]; simp [flush]
    · exact ⟨[], by simp [popPrec, ho, flush]⟩

theorem mem_flush {c : Char} {ops : List Char} (h : c ∈ flush ops) : c = ' ' ∨ c ∈ ops := by
  induction ops with
  | nil => simp [flush] at h
  | cons o os ih =>
    simp only [flush, List.mem_cons] at h
    rcases h with h | h | h
    · exact Or.inl h
    · exact Or.inr (by simp [h])
    · rcases ih h with h1 | h1
      · exact Or.inl h1
      · exact Or.inr (List.mem_cons_of_mem _ h1)

theorem scan_prefix_induction (s : List Char) (P : ConvState → Prop) (h0 : P convInit)
    (hstep : ∀ a c b st1 st, s = a ++ c :: b → convScan convInit a = .ok st1 → P st1 →
      convStep st1 c = .ok st → P st) :
    ∀ a b st, s = a ++ b → convScan convInit a = .ok st → P st := by
  intro a
  induction a using List.reverseRecOn with
  | nil =>
    intro b st _ h
    simp only [convScan, Except.ok.injEq] at h
    rw [← h]; exact h0
  | append_singleton a c ih =>
    intro b st hs h
    obtain ⟨st1, h1, h2⟩ := convScan_prefix_ok h
    have hs' : s = a ++ c :: b := by rw [hs]; simp
    rw [convScan] at h2
    cases h3 : convStep st1 c with
    | error e => rw [h3] at h2; simp at h2
    | ok st2 =>
      rw [h3] at h2
      simp only [convScan, Except.ok.injEq] at h2
      rw [← h2]
      exact hstep a c b st1 st2 hs' h1 (ih (c :: b) st1 hs' h1) h3

theorem isOperator_precedence {c : Char} (h : isOperator c = true) : 1 ≤ precedenceOf c := by
  rcases isOperator_cases h with h | h | h | h <;> subst h <;> decide

theorem isCalcChar_other {c : Char} (h : isCalcChar c = true) (hs : isspace c = false)
    (hd : isdigit c = false) (ho : c ≠ '(') (hc : c ≠ ')') : isOperator c = true := by
  simpa [isCalcChar, hs, hd, ho, hc] using h

theorem ScanInv_step {st st' : ConvState} {c : Char} (hinv : ScanInv st)
    (hc : isCalcChar c = true) (h : convStep st c = .ok st') : ScanInv st' := by
  obtain ⟨i1, i2, i3⟩ := hinv
  rcases char_cases c with h1 | h1 | h1 | h1 | ⟨h1, h2, h3, h4⟩
  · rw [convStep_isspace st c h1] at h
    simp only [Except.ok.injEq] at h
    rw [← h]; exact ⟨i1, i2, i3⟩
  · rw [convStep_digit st c h1 (isspace_of_isdigit h1)] at h
    split at h
    · simp only [Except.ok.injEq] at h
      rw [← h]
      refine ⟨i1, i2, ?_⟩
      intro x hx
      simp only [List.mem_append, List.mem_singleton] at hx
      rcases hx with hx | hx
      · exact i3 x hx
      · rw [hx]; exact Or.inr (Or.inl h1)
    · simp at h
  · subst h1
    rw [convStep_open] at h
    simp only [Except.ok.injEq] at h
    rw [← h]
    refine ⟨?_, ?_, i3⟩
    · intro o ho
      rcases List.mem_cons.mp ho with ho | ho
      · exact Or.inr ho
      · exact i1 o ho
    · simp [i2]
  · subst h1
    rw [convStep_close] at h
    split at h
    · simp at h
    · rename_i hb
      simp only [Except.ok.injEq] at h
      obtain ⟨popped, p1, p2, p3, p4⟩ := popToOpen_spec st.operators st.out
      have hcount : (popToOpen st.operators st.out).1.count '(' = st.parenthesesBalance := by
        rw [← i2]
        conv_rhs => rw [p1]
        rw [List.count_append, List.count_eq_zero_of_not_mem p2, Nat.zero_add]
      rw [← h]
      refine ⟨?_, ?_, ?_⟩
      · intro o ho
        apply i1
        rw [p1]
        exact List.mem_append_right _ (List.mem_of_mem_tail ho)
      · rcases p4 with p4 | ⟨r, p4⟩
        · rw [p4] at hcount
          simp at hcount
          exact absurd hcount.symm hb
        · rw [p4] at hcount ⊢
          simp at hcount ⊢
          omega
      · intro x hx
        simp only [p3, List.mem_append] at hx
        rcases hx with hx | hx
        · exact i3 x hx
        · rcases mem_flush hx with hx | hx
          · exact Or.inl hx
          · have hmem : x ∈ st.operators := by
              rw [p1]; exact List.mem_append_left _ hx
            rcases i1 x hmem with h5 | h5
            · exact Or.inr (Or.inr h5)
            · rw [h5] at hx; exact absurd hx p2
  · have hop := isCalcChar_other hc h1 h2 h3 h4
    rw [convStep_other st c h1 h2 h3 h4] at h
    split at h
    · simp at h
    · simp only [Except.ok.injEq] at h
      obtain ⟨popped, p1, p2, p3⟩ := popPrec_spec c st.operators st.out
      have hno : '(' ∉ popped := by
        intro hm
        have := p2 _ hm
        have := isOperator_precedence hop
        have h0 : precedenceOf '(' = 0 := by decide
        omega
      rw [← h]
      refine ⟨?_, ?_, ?_⟩
      · intro o ho
        rcases List.mem_cons.mp ho with ho | ho
        · rw [ho]; exact Or.inl hop
        · apply i1
          rw [p1]
          exact List.mem_append_right _ ho
      · simp only
        rw [← i2]
        conv_rhs => rw [p1]
        rw [List.count_append, List.count_eq_zero_of_not_mem hno, Nat.zero_add]
        simp [List.count_cons, h3]
      · intro x hx
        simp only [p3, List.mem_append, List.mem_singleton] at hx
        rcases hx with (hx | hx) | hx
        · exact i3 x hx
        · rcases mem_flush hx with hx | hx
          · exact Or.inl hx
          · have hmem : x ∈ st.operators := by
              rw [p1]; exact List.mem_append_left _ hx
            rcases i1 x hmem with h5 | h5
            · exact Or.inr (Or.inr h5)
            · rw [h5] at hx; exact absurd hx hno
        · exact Or.inl hx


theorem infixToPostfix_ok_output {s p : List Char} (h : infixToPostfix s = .ok p) :
    ∃ st, convScan convInit s = .ok st ∧ st.parenthesesBalance = 0 ∧
      p = st.out ++ flush st.operators := by
  obtain ⟨st, h1, h2⟩ := infixToPostfix_ok_scan h
  refine ⟨st, h1, h2, ?_⟩
  unfold infixToPostfix at h
  rw [h1] at h
  simp only [convFinish, h2, ne_eq, not_true_eq_false, if_false, Except.ok.injEq] at h
  rw [← h, popAll_eq]

theorem ScanInv_init : ScanInv convInit := by
  simp [ScanInv, convInit]

theorem ScanInv_prefix {s : List Char} (hs : ∀ c ∈ s, isCalcChar c = true) :
    ∀ a b st, s = a ++ b → convScan convInit a = .ok st → ScanInv st := by
  apply scan_prefix_induction s ScanInv ScanInv_init
  intro a c b st1 st h _ hinv hstep
  exact ScanInv_step hinv (hs c (by rw [h]; simp)) hstep

/-- C18: for every input made only of digits, the four operators, parentheses and
whitespace, after every prefix of the scan the counter `parenthesesBalance` equals
the number of `(` markers on the operator stack and no `(` has been written to the
output; whenever the `)` branch reaches its unconditional pop the stack is non-empty
with `(` on top; and no `(` occurs in the returned string.  With another character
the invariant can break: after `( 3 a 4 ` the counter is 1 while the stack holds no
`(`, so the `)` that follows reaches the unconditional pop with an empty stack. -/
theorem parenthesis_counter_invariant :
    (∀ s : List Char, (∀ c ∈ s, isCalcChar c = true) →
      (∀ a b st, s = a ++ b → convScan convInit a = .ok st →
        st.operators.count '(' = st.parenthesesBalance ∧ '(' ∉ st.out) ∧
      (∀ a b st, s = a ++ ')' :: b → convScan convInit a = .ok st →
        st.parenthesesBalance ≠ 0 →
        ∃ rest, (popToOpen st.operators st.out).1 = '(' :: rest) ∧
      (∀ p, infixToPostfix s = .ok p → '(' ∉ p)) ∧
    (∃ st, convScan convInit "( 3 a 4 ".toList = .ok st ∧ st.parenthesesBalance = 1 ∧
      st.operators.count '(' = 0 ∧ (popToOpen st.operators st.out).1 = []) := by
  have hout : ∀ st, ScanInv st → '(' ∉ st.out := by
    intro st hinv hm
    rcases hinv.2.2 _ hm with h | h | h
    · exact absurd h (by decide)
    · exact absurd h (by decide)
    · exact absurd h (by decide)
  refine ⟨fun s hs => ⟨?_, ?_, ?_⟩, ?_⟩
  · intro a b st h1 h2
    have hinv := ScanInv_prefix hs a b st h1 h2
    exact ⟨hinv.2.1, hout st hinv⟩
  · intro a b st h1 h2 hb
    have hinv := ScanInv_prefix hs a (')' :: b) st h1 h2
    obtain ⟨popped, p1, p2, _, p4⟩ := popToOpen_spec st.operators st.out
    have hcount : (popToOpen st.operators st.out).1.count '(' = st.parenthesesBalance := by
      rw [← hinv.2.1]
      conv_rhs => rw [p1]
      rw [List.count_append, List.count_eq_zero_of_not_mem p2, Nat.zero_add]
    rcases p4 with p4 | p4
    · rw [p4] at hcount
      simp at hcount
      exact absurd hcount.symm hb
    · exact p4
  · intro p hp
    obtain ⟨st, h1, h2, h3⟩ := infixToPostfix_ok_output hp
    have hinv := ScanInv_prefix hs s [] st (by simp) h1
    have hops : '(' ∉ st.operators := by
      rw [← List.count_eq_zero, hinv.2.1, h2]
    rw [h3]
    intro hm
    rcases List.mem_append.mp hm with hm | hm
    · exact hout st hinv hm
    · rcases mem_flush hm with hm | hm
      · exact absurd hm (by decide)
      · exact hops hm
  · exact ⟨⟨['a'], "3 ( 4".toList, 1, false⟩, by decide, rfl, by decide, by decide⟩

/-- On the input `( 3 + 4 ) * 2`, after the prefix `( 3 + ` the stack holds one `(`
and the counter is 1, the `)` finds `(` on top after popping `+`, and the output
`3 4 + 2 *` has no `(`. -/
theorem parenthesis_counter_invariant_witness :
    (List.count '(' ['+', '('] = 1 ∧ '(' ∉ "3 ".toList) ∧
    (∃ rest, (popToOpen ['+', '('] "3 4".toList).1 = '(' :: rest) ∧
    '(' ∉ "3 4 + 2 *".toList :=
  ⟨(parenthesis_counter_invariant.1 "( 3 + 4 ) * 2".toList (by decide)).1
      "( 3 + ".toList "4 ) * 2".toList ⟨['+', '('], "3 ".toList, 1, true⟩
      (by decide) (by decide),
    (parenthesis_counter_invariant.1 "( 3 + 4 ) * 2".toList (by decide)).2.1
      "( 3 + 4 ".toList " * 2".toList ⟨['+', '('], "3 4".toList, 1, false⟩
      (by decide) (by decide) (by decide),
    (parenthesis_counter_invariant.1 "( 3 + 4 ) * 2".toList (by decide)).2.2
      "3 4 + 2 *".toList (by decide)⟩


/-! ## The tokens of the output -/

theorem main0_precedenceOf_eq (c : Char) : Main0.precedenceOf c = precedenceOf c := rfl

theorem main0_popToOpen_eq (ops : List Char) :
    ∀ out : List Char, Main0.popToOpen ops out = popToOpen ops out := by
  induction ops with
  | nil => intro out; rfl
  | cons o os ih => intro out; simp only [Main0.popToOpen, popToOpen, ih]

theorem main0_popPrec_eq (c : Char) (ops : List Char) :
    ∀ out : List Char, Main0.popPrec c ops out = popPrec c ops out := by
  induction ops with
  | nil => intro out; rfl
  | cons o os ih =>
    intro out
    simp only [Main0.popPrec, popPrec, ih, main0_precedenceOf_eq]

theorem main0_popAll_eq (ops : List Char) :
    ∀ out : List Char, Main0.popAll ops out = popAll ops out := by
  induction ops with
  | nil => intro out; rfl
  | cons o os ih => intro out; simp only [Main0.popAll, popAll, ih]

theorem main0_convStep_eq (st : ConvState) (c : Char) :
    Main0.convStep st c = convStep st c := by
  simp only [Main0.convStep, convStep, main0_popToOpen_eq, main0_popPrec_eq]

theorem main0_convScan_eq (s : List Char) :
    ∀ st : ConvState, Main0.convScan st s = convScan st s := by
  induction s with
  | nil => intro st; rfl
  | cons c cs ih =>
    intro st
    simp only [Main0.convScan, convScan, main0_convStep_eq]
    cases convStep st c with
    | error e => rfl
    | ok st1 => exact ih st1

theorem main0_infixToPostfix_eq (s : List Char) :
    Main0.infixToPostfix s = infixToPostfix s := by
  simp only [Main0.infixToPostfix, infixToPostfix, main0_convScan_eq, convFinish,
    main0_popAll_eq]

theorem main0_applyOp_eq {a b : Int} {c : Char} {v : Int} (h : applyOp a b c = .ok v) :
    Main0.applyOp a b c = .ok v := by
  unfold applyOp at h
  unfold Main0.applyOp
  by_cases h1 : c = '+'
  · simpa [h1] using h
  by_cases h2 : c = '-'
  · simpa [h1, h2] using h
  by_cases h3 : c = '*'
  · simpa [h1, h2, h3] using h
  by_cases h4 : c = '/'
  · simpa [h1, h2, h3, h4] using h
  · simp [h1, h2, h3, h4] at h

theorem main0_applyOp_divzero {a b : Int} {c : Char}
    (h : applyOp a b c = .error "Division by zero") :
    Main0.applyOp a b c = .error "Division by zero" := by
  unfold applyOp at h
  unfold Main0.applyOp
  by_cases h1 : c = '+'
  · simp [h1] at h
  by_cases h2 : c = '-'
  · simp [h2] at h
  by_cases h3 : c = '*'
  · simp [h3] at h
  by_cases h4 : c = '/'
  · simpa [h1, h2, h3, h4] using h
  · simp [h1, h2, h3, h4] at h

theorem main0_evalStep_agree (stack : List Int) (t : List Char)
    (h1 : evalStep stack t ≠ .error "Invalid expression: not enough operands")
    (h2 : evalStep stack t ≠ .error "Invalid operator") :
    Main0.evalStep stack t = some (evalStep stack t) := by
  cases t with
  | nil => rfl
  | cons t0 ts =>
    by_cases hd : isdigit t0 = true
    · simp only [Main0.evalStep, evalStep, hd, if_true]
      cases stoi (t0 :: ts) <;> rfl
    · have hd' : isdigit t0 = false := by simpa using hd
      match stack, h1, h2 with
      | [], h1, _ => simp [evalStep, hd'] at h1
      | [_], h1, _ => simp [evalStep, hd'] at h1
      | b :: a :: rest, _, h2 =>
        simp only [evalStep, hd', Bool.false_eq_true, if_false] at h2
        simp only [Main0.evalStep, evalStep, hd', Bool.false_eq_true, if_false, top?, pop?,
          List.head?_cons]
        cases ha : applyOp a b t0 with
        | ok v => rw [main0_applyOp_eq ha]
        | error e =>
          rw [ha] at h2
          rcases applyOp_error_cases ha with he | he
          · subst he
            rw [main0_applyOp_divzero ha]
          · subst he
            exact absurd rfl h2

theorem main0_evalTokens_agree (ts : List (List Char)) :
    ∀ stack : List Int,
      evalTokens stack ts ≠ .error "Invalid expression: not enough operands" →
      evalTokens stack ts ≠ .error "Invalid operator" →
      Main0.evalTokens stack ts = some (evalTokens stack ts) := by
  induction ts with
  | nil => intro stack _ _; rfl
  | cons t ts ih =>
    intro stack h1 h2
    rw [evalTokens] at h1 h2
    rw [Main0.evalTokens, evalTokens]
    cases hs : evalStep stack t with
    | error e =>
      rw [hs] at h1 h2
      rw [main0_evalStep_agree stack t (by rw [hs]; exact h1) (by rw [hs]; exact h2), hs]
    | ok stack1 =>
      rw [hs] at h1 h2
      rw [main0_evalStep_agree stack t (by rw [hs]; simp) (by rw [hs]; simp), hs]
      exact ih stack1 h1 h2

theorem main0_evalStep_undefined (stack : List Int) (t : List Char)
    (h : evalStep stack t = .error "Invalid expression: not enough operands") :
    Main0.evalStep stack t = none := by
  obtain ⟨⟨c, h1, h2⟩, h3⟩ := (evalStep_notEnough stack t).mp h
  cases t with
  | nil => simp at h1
  | cons t0 ts =>
    simp only [List.head?_cons, Option.some.injEq] at h1
    subst h1
    match stack, h3 with
    | [], _ => simp [Main0.evalStep, h2, top?, pop?]
    | [_], _ => simp [Main0.evalStep, h2, top?, pop?]
    | _ :: _ :: _, h3 => simp only [List.length_cons] at h3; omega

theorem main0_evalTokens_undefined (ts : List (List Char)) :
    ∀ stack : List Int,
      evalTokens stack ts = .error "Invalid expression: not enough operands" →
      Main0.evalTokens stack ts = none := by
  induction ts with
  | nil => intro stack h; simp [evalTokens] at h
  | cons t ts ih =>
    intro stack h
    rw [evalTokens] at h
    rw [Main0.evalTokens]
    cases hs : evalStep stack t with
    | error e =>
      rw [hs] at h
      simp only [Except.error.injEq] at h
      subst h
      rw [main0_evalStep_undefined stack t hs]
    | ok stack1 =>
      rw [hs] at h
      rw [main0_evalStep_agree stack t (by rw [hs]; simp) (by rw [hs]; simp), hs]
      exact ih stack1 h


theorem main0_evaluatePostfix_agree (p : List Char)
    (h1 : evaluatePostfix p ≠ .error "Invalid expression: not enough operands")
    (h2 : evaluatePostfix p ≠ .error "Invalid operator") :
    Main0.evaluatePostfix p = some (evaluatePostfix p) := by
  unfold evaluatePostfix at h1 h2 ⊢
  unfold Main0.evaluatePostfix
  cases ht : evalTokens [] (split p) with
  | error e =>
    rw [ht] at h1 h2
    simp only [ne_eq, Except.error.injEq] at h1 h2
    rw [main0_evalTokens_agree (split p) [] (by rw [ht]; simpa using h1)
      (by rw [ht]; simpa using h2), ht]
  | ok stack =>
    rw [main0_evalTokens_agree (split p) [] (by rw [ht]; simp) (by rw [ht]; simp), ht]
    match stack with
    | [] => rfl
    | [_] => rfl
    | _ :: _ :: _ => rfl

theorem main0_evaluatePostfix_undefined (p : List Char)
    (h : evaluatePostfix p = .error "Invalid expression: not enough operands") :
    Main0.evaluatePostfix p = none := by
  unfold evaluatePostfix at h
  unfold Main0.evaluatePostfix
  cases ht : evalTokens [] (split p) with
  | error e =>
    rw [ht] at h
    simp only [Except.error.injEq] at h
    subst h
    rw [main0_evalTokens_undefined (split p) [] ht]
  | ok stack =>
    rw [ht] at h
    match stack, h with
    | [], h => simp at h
    | [_], h => simp at h
    | _ :: _ :: _, h => simp at h

/-- C17 (as stated, refuted): on `3 a 4` the pipeline of `calculate.cpp` returns the
error `Invalid operator` while the pipeline of `main_0.cpp` returns the integer `0`;
on `3 +` the former returns `Invalid expression: not enough operands` while the
latter reads an empty stack and throws nothing. -/
theorem implementations_disagree :
    (calculate "3 a 4".toList = .error "Invalid operator" ∧
      Main0.calculate "3 a 4".toList = some (.ok 0)) ∧
    (calculate "3 +".toList = .error "Invalid expression: not enough operands" ∧
      Main0.calculate "3 +".toList = none) :=
  ⟨⟨by decide, by decide⟩, by decide, by decide⟩

/-- C17 (amended): the two `infixToPostfix` functions return the same postfix string
or the same error on every input; and on every input for which the pipeline of
`calculate.cpp` returns neither `Invalid expression: not enough operands` nor
`Invalid operator`, the pipeline of `main_0.cpp` throws an error with message `m`
exactly when that of `calculate.cpp` returns the error `m`, and otherwise both
return the same integer.  Where `calculate.cpp` returns
`Invalid expression: not enough operands`, `main_0.cpp` reads an empty stack. -/
theorem implementations_agree :
    (∀ s : List Char, Main0.infixToPostfix s = infixToPostfix s) ∧
    (∀ s : List Char,
      calculate s ≠ .error "Invalid expression: not enough operands" →
      calculate s ≠ .error "Invalid operator" →
      Main0.calculate s = some (calculate s)) ∧
    (∀ s : List Char,
      calculate s = .error "Invalid expression: not enough operands" →
      Main0.calculate s = none) := by
  refine ⟨main0_infixToPostfix_eq, ?_, ?_⟩
  · intro s h1 h2
    unfold calculate at h1 h2 ⊢
    unfold Main0.calculate
    rw [main0_infixToPostfix_eq]
    cases hp : infixToPostfix s with
    | error e => rfl
    | ok p =>
      rw [hp] at h1 h2
      exact main0_evaluatePostfix_agree p h1 h2
  · intro s h
    unfold calculate at h
    unfold Main0.calculate
    rw [main0_infixToPostfix_eq]
    cases hp : infixToPostfix s with
    | error e =>
      rw [hp] at h
      simp only [Except.error.injEq] at h
      obtain h3 | h3 | h3 := infixToPostfix_error_cases hp <;> rw [h3] at h <;>
        exact absurd h (by decide)
    | ok p =>
      rw [hp] at h
      exact main0_evaluatePostfix_undefined p h

/-- On `8 / 0` both pipelines end with `Division by zero`, on `( 3 + 4 ) * 2` both
return `14`, and on `3 +` the pipeline of `main_0.cpp` is undefined. -/
theorem implementations_agree_witness :
    Main0.calculate "8 / 0".toList = some (.error "Division by zero") ∧
    Main0.calculate "( 3 + 4 ) * 2".toList = some (.ok 14) ∧
    Main0.calculate "3 +".toList = none :=
  ⟨(implementations_agree.2.1 "8 / 0".toList (by decide) (by decide)).trans (by decide),
    (implementations_agree.2.1 "( 3 + 4 ) * 2".toList (by decide) (by decide)).trans
      (by decide),
    implementations_agree.2.2 "3 +".toList (by decide)⟩


/-! ## The size of the values -/

theorem Expr.operands_pos (e : Expr) : 1 ≤ e.operands := by
  induction e with
  | num d => simp [Expr.operands]
  | paren e ih => simpa [Expr.operands] using ih
  | bin op l r ihl _ => simp only [Expr.operands]; omega

theorem pow_add_le (m k : Nat) (hm : 1 ≤ m) (hk : 1 ≤ k) : 9 ^ m + 9 ^ k ≤ 9 ^ (m + k) := by
  have h1 : 2 ≤ 9 ^ m := le_trans (by norm_num) (Nat.pow_le_pow_right (by norm_num) hm)
  have h2 : 2 ≤ 9 ^ k := le_trans (by norm_num) (Nat.pow_le_pow_right (by norm_num) hk)
  rw [Nat.pow_add]
  have h3 : 2 * 9 ^ k ≤ 9 ^ m * 9 ^ k := Nat.mul_le_mul_right _ h1
  have h4 : 9 ^ m * 2 ≤ 9 ^ m * 9 ^ k := Nat.mul_le_mul_left _ h2
  linarith

theorem Op.apply_bound {op : Op} {a b v : Int} {m k : Nat} (hm : 1 ≤ m) (hk : 1 ≤ k)
    (ha : a.natAbs ≤ 9 ^ m) (hb : b.natAbs ≤ 9 ^ k) (h : op.apply a b = some v) :
    v.natAbs ≤ 9 ^ (m + k) := by
  have hsum := pow_add_le m k hm hk
  cases op with
  | add =>
    simp only [Op.apply, Option.some.injEq] at h
    rw [← h]
    exact le_trans (Int.natAbs_add_le a b) (by omega)
  | sub =>
    simp only [Op.apply, Option.some.injEq] at h
    rw [← h]
    exact le_trans (Int.natAbs_sub_le a b) (by omega)
  | mul =>
    simp only [Op.apply, Option.some.injEq] at h
    rw [← h, Int.natAbs_mul, Nat.pow_add]
    exact Nat.mul_le_mul ha hb
  | div =>
    simp only [Op.apply] at h
    split at h
    · simp at h
    · simp only [Option.some.injEq] at h
      rw [← h, Int.natAbs_tdiv]
      have h1 : a.natAbs.div b.natAbs ≤ a.natAbs := Nat.div_le_self _ _
      have h2 : 9 ^ m ≤ 9 ^ (m + k) := Nat.pow_le_pow_right (by norm_num) (by omega)
      exact le_trans h1 (le_trans ha h2)

theorem Expr.value_bound (e : Expr) : ∀ v, e.value = some v → v.natAbs ≤ 9 ^ e.operands := by
  induction e with
  | num d =>
    intro v h
    simp only [Expr.value, Option.some.injEq] at h
    rw [← h]
    simp only [Expr.operands, Int.natAbs_ofNat, pow_one]
    omega
  | paren e ih =>
    intro v h
    exact ih v h
  | bin op l r ihl ihr =>
    intro v h
    simp only [Expr.value] at h
    cases hl : l.value with
    | none => rw [hl] at h; simp at h
    | some a =>
      cases hr : r.value with
      | none => rw [hl, hr] at h; simp at h
      | some b =>
        rw [hl, hr] at h
        exact Op.apply_bound l.operands_pos r.operands_pos (ihl a hl) (ihr b hr) h

theorem Expr.pushes_bound (e : Expr) : ∀ v ∈ e.pushes, v.natAbs ≤ 9 ^ e.operands := by
  induction e with
  | num d =>
    intro v h
    simp only [Expr.pushes, List.mem_singleton] at h
    rw [h]
    simp only [Expr.operands, Int.natAbs_ofNat, pow_one]
    omega
  | paren e ih => exact ih
  | bin op l r ihl ihr =>
    intro v h
    have h1 : 9 ^ l.operands ≤ 9 ^ (l.operands + r.operands) :=
      Nat.pow_le_pow_right (by norm_num) (by omega)
    have h2 : 9 ^ r.operands ≤ 9 ^ (l.operands + r.operands) :=
      Nat.pow_le_pow_right (by norm_num) (by omega)
    simp only [Expr.pushes, List.mem_append] at h
    rcases h with h | h
    · exact le_trans (ihl v h) h1
    · cases hl : l.value with
      | none => rw [hl] at h; simp at h
      | some a =>
        rw [hl] at h
        simp only [List.mem_append] at h
        rcases h with h | h
        · exact le_trans (ihr v h) h2
        · cases hr : r.value with
          | none => rw [hr] at h; simp at h
          | some b =>
            rw [hr] at h
            simp only [Option.mem_toList, Option.mem_def] at h
            exact Op.apply_bound l.operands_pos r.operands_pos
              (l.value_bound a hl) (r.value_bound b hr) h

theorem evalPushes_rpn (e : Expr) :
    ∀ (stack : List Int) (rest : List (List Char)),
      evalPushes stack (e.rpn ++ rest)
        = e.pushes ++ match e.value with
          | some v => evalPushes (v :: stack) rest
          | none => [] := by
  induction e with
  | num d =>
    intro stack rest
    simp [Expr.rpn, Expr.value, Expr.pushes, evalPushes, evalStep_digitChar]
  | paren e ih =>
    intro stack rest
    simpa [Expr.rpn, Expr.value, Expr.pushes] using ih stack rest
  | bin op l r ihl ihr =>
    intro stack rest
    simp only [Expr.rpn, Expr.value, Expr.pushes, List.append_assoc]
    rw [ihl]
    cases hl : l.value with
    | none => simp
    | some a =>
      simp only
      rw [ihr]
      cases hr : r.value with
      | none => simp
      | some b =>
        simp only [List.singleton_append, evalPushes, evalStep_symbol]
        cases op.apply a b <;> simp


theorem wrap32_eq {v : Int} (h : v.natAbs ≤ 387420489) : wrap32 v = v := by
  unfold wrap32
  omega

theorem evalStep32_digitChar (stack : List Int) (d : Fin 10) :
    evalStep32 stack [digitChar d] = .ok ((d.val : Int) :: stack) := by
  fin_cases d <;> rfl

theorem evalStep32_symbol (op : Op) (a b : Int) (stack : List Int) :
    evalStep32 (b :: a :: stack) [op.symbol]
      = match op.apply a b with
        | some v => .ok (wrap32 v :: stack)
        | none => .error "Division by zero" := by
  cases op
  · simp [evalStep32, applyOp32, Op.apply, Op.symbol, show isdigit '+' = false by decide]
  · simp [evalStep32, applyOp32, Op.apply, Op.symbol, show isdigit '-' = false by decide]
  · simp [evalStep32, applyOp32, Op.apply, Op.symbol, show isdigit '*' = false by decide]
  · by_cases hb : b = 0 <;>
      simp [evalStep32, applyOp32, Op.apply, Op.symbol, show isdigit '/' = false by decide, hb]

theorem evalTokens32_rpn (e : Expr) (h9 : e.operands ≤ 9) :
    ∀ (stack : List Int) (rest : List (List Char)),
      evalTokens32 stack (e.rpn ++ rest)
        = match e.value with
          | some v => evalTokens32 (v :: stack) rest
          | none => .error "Division by zero" := by
  induction e with
  | num d =>
    intro stack rest
    simp [Expr.rpn, Expr.value, evalTokens32, evalStep32_digitChar]
  | paren e ih =>
    intro stack rest
    simpa [Expr.rpn, Expr.value] using ih h9 stack rest
  | bin op l r ihl ihr =>
    intro stack rest
    have hl9 : l.operands ≤ 9 := by
      have := r.operands_pos
      simp only [Expr.operands] at h9
      omega
    have hr9 : r.operands ≤ 9 := by
      have := l.operands_pos
      simp only [Expr.operands] at h9
      omega
    have hbound := (Expr.bin op l r).value_bound
    simp only [Expr.rpn, Expr.value, List.append_assoc] at hbound ⊢
    rw [ihl hl9]
    cases hl : l.value with
    | none => rfl
    | some a =>
      simp only
      rw [ihr hr9]
      cases hr : r.value with
      | none => rfl
      | some b =>
        simp only [List.singleton_append, evalTokens32, evalStep32_symbol]
        rw [hl, hr] at hbound
        cases ha : op.apply a b with
        | none => rfl
        | some v =>
          have h1 := hbound v ha
          have h2 : 9 ^ (Expr.bin op l r).operands ≤ 9 ^ 9 :=
            Nat.pow_le_pow_right (by norm_num) h9
          have h3 : v.natAbs ≤ 387420489 := le_trans h1 (le_trans h2 (by norm_num))
          simp only [wrap32_eq h3]
          rfl

theorem evaluatePostfix32_emitted (e : Expr) (h9 : e.operands ≤ 9) :
    evaluatePostfix32 (e.emitted ++ flush (e.pending.map Op.symbol))
      = evaluatePostfix (e.emitted ++ flush (e.pending.map Op.symbol)) := by
  have h := evalTokens32_rpn e h9 [] []
  rw [List.append_nil] at h
  rw [evaluatePostfix_emitted, evaluatePostfix32, split_symbol_flush, split_emitted, h]
  cases e.value <;> rfl

theorem evalPushes_emitted (e : Expr) :
    evalPushes [] (split (e.emitted ++ flush (e.pending.map Op.symbol))) = e.pushes := by
  have h := evalPushes_rpn e [] []
  rw [List.append_nil] at h
  rw [split_symbol_flush, split_emitted, h]
  cases e.value <;> simp [evalPushes]

/-- C20: for every well-formed single-digit infix expression with `n` operands, every
value that `evaluatePostfix` pushes on the operand stack has absolute value at most
`9 ^ n`; hence for `n ≤ 9` every such value fits in a 32-bit signed `int` and the
evaluation with 32-bit arithmetic gives the same result as the evaluation over the
integers; whereas `9 * 9 * 9 * 9 * 9 * 9 * 9 * 9 * 9 * 9`, with 10 operands, has the
value 3486784401, above `INT_MAX`. -/
theorem overflow_bound :
    (∀ (e : Expr) (s : List Char), e.WellFormed →
      s.filter (fun c => !isspace c) = e.render →
      ∃ p, infixToPostfix s = .ok p ∧
        (∀ v ∈ evalPushes [] (split p), v.natAbs ≤ 9 ^ e.operands) ∧
        (e.operands ≤ 9 →
          (∀ v ∈ evalPushes [] (split p), -2147483648 ≤ v ∧ v ≤ INT_MAX) ∧
          evaluatePostfix32 p = evaluatePostfix p)) ∧
    (tenNines.WellFormed ∧ tenNines.operands = 10 ∧
      "9 * 9 * 9 * 9 * 9 * 9 * 9 * 9 * 9 * 9".toList.filter (fun c => !isspace c)
        = tenNines.render ∧
      calculate "9 * 9 * 9 * 9 * 9 * 9 * 9 * 9 * 9 * 9".toList = .ok 3486784401 ∧
      (3486784401 : Int) > INT_MAX) := by
  refine ⟨?_, by decide, by decide, by decide, by decide, by decide⟩
  intro e s hwf hs
  refine ⟨e.emitted ++ flush (e.pending.map Op.symbol), ?_, ?_, ?_⟩
  · rw [← infixToPostfix_filter, hs, infixToPostfix_render e hwf]
  · rw [evalPushes_emitted]
    exact e.pushes_bound
  · intro h9
    refine ⟨?_, evaluatePostfix32_emitted e h9⟩
    rw [evalPushes_emitted]
    intro v hv
    have h1 := e.pushes_bound v hv
    have h2 : 9 ^ e.operands ≤ 9 ^ 9 := Nat.pow_le_pow_right (by norm_num) h9
    have h3 : v.natAbs ≤ 387420489 := le_trans h1 (le_trans h2 (by norm_num))
    unfold INT_MAX
    omega

/-- The expression `3 + 4 * 2 / ( 1 - 5 )`, with 5 operands, pushes only values of
absolute value at most `9 ^ 5`, all within the range of `int`, and evaluates to the
same result with 32-bit arithmetic. -/
theorem overflow_bound_witness :
    ∃ p, infixToPostfix "3 + 4 * 2 / ( 1 - 5 )".toList = .ok p ∧
      (∀ v ∈ evalPushes [] (split p), v.natAbs ≤ 9 ^ testExpr.operands) ∧
      (testExpr.operands ≤ 9 →
        (∀ v ∈ evalPushes [] (split p), -2147483648 ≤ v ∧ v ≤ INT_MAX) ∧
        evaluatePostfix32 p = evaluatePostfix p) :=
  overflow_bound.1 testExpr "3 + 4 * 2 / ( 1 - 5 )".toList (by decide) (by decide)


/-! ## Division by zero -/

theorem evalStepM_digitChar (stack : List Int) (d : Fin 10) :
    evalStepM stack [digitChar d] = some (.ok ((d.val : Int) :: stack)) := by
  fin_cases d <;> rfl

theorem evalStepM_symbol (op : Op) (a b : Int) (stack : List Int) :
    evalStepM (b :: a :: stack) [op.symbol]
      = match op.applyM a b with
        | .value v => some (.ok (v :: stack))
        | .divisionByZero => some (.error "Division by zero")
        | .undefined => none := by
  cases op
  · simp [evalStepM, applyOpM, Op.applyM, Op.symbol, show isdigit '+' = false by decide]
  · simp [evalStepM, applyOpM, Op.applyM, Op.symbol, show isdigit '-' = false by decide]
  · simp [evalStepM, applyOpM, Op.applyM, Op.symbol, show isdigit '*' = false by decide]
  · by_cases hb : b = 0
    · simp [evalStepM, applyOpM, Op.applyM, Op.symbol, show isdigit '/' = false by decide, hb]
    · by_cases hm : a = INT_MIN ∧ b = -1 <;>
        simp [evalStepM, applyOpM, Op.applyM, Op.symbol,
          show isdigit '/' = false by decide, hb, hm]

theorem evalTokensM_rpn (e : Expr) :
    ∀ (stack : List Int) (rest : List (List Char)),
      evalTokensM stack (e.rpn ++ rest)
        = match e.machineValue with
          | .value v => evalTokensM (v :: stack) rest
          | .divisionByZero => some (.error "Division by zero")
          | .undefined => none := by
  induction e with
  | num d =>
    intro stack rest
    simp [Expr.rpn, Expr.machineValue, evalTokensM, evalStepM_digitChar]
  | paren e ih =>
    intro stack rest
    simpa [Expr.rpn, Expr.machineValue] using ih stack rest
  | bin op l r ihl ihr =>
    intro stack rest
    simp only [Expr.rpn, Expr.machineValue, List.append_assoc]
    rw [ihl]
    cases hl : l.machineValue with
    | divisionByZero => rfl
    | undefined => rfl
    | value a =>
      simp only
      rw [ihr]
      cases hr : r.machineValue with
      | divisionByZero => rfl
      | undefined => rfl
      | value b =>
        simp only [List.singleton_append, evalTokensM, evalStepM_symbol]
        cases op.applyM a b <;> rfl

theorem evaluatePostfixM_emitted (e : Expr) :
    evaluatePostfixM (e.emitted ++ flush (e.pending.map Op.symbol))
      = match e.machineValue with
        | .value v => some (.ok v)
        | .divisionByZero => some (.error "Division by zero")
        | .undefined => none := by
  have h := evalTokensM_rpn e [] []
  rw [List.append_nil] at h
  rw [evaluatePostfixM, split_symbol_flush, split_emitted, h]
  cases e.machineValue <;> rfl

theorem applyOpM_divzero {a b : Int} {c : Char}
    (h : applyOpM a b c = some (.error "Division by zero")) : c = '/' ∧ b = 0 := by
  unfold applyOpM at h
  by_cases h1 : c = '+'
  · simp [h1] at h
  by_cases h2 : c = '-'
  · simp [h2] at h
  by_cases h3 : c = '*'
  · simp [h3] at h
  by_cases h4 : c = '/'
  · by_cases hb : b = 0
    · exact ⟨h4, hb⟩
    · by_cases hm : a = INT_MIN ∧ b = -1 <;> simp [h4, hb, hm] at h
  · simp [h1, h2, h3, h4] at h

theorem evalStepM_divzero (stack : List Int) (t : List Char)
    (h : evalStepM stack t = some (.error "Division by zero")) :
    t.head? = some '/' ∧ ∃ a rest, stack = 0 :: a :: rest := by
  cases t with
  | nil => simp [evalStepM] at h
  | cons t0 ts =>
    by_cases hd : isdigit t0 = true
    · simp only [evalStepM, hd, if_true] at h
      cases hs : stoi (t0 :: ts) with
      | error e =>
        rw [hs] at h
        simp only [Option.some.injEq, Except.error.injEq] at h
        have := stoi_error_cases hs
        rw [this] at h
        exact absurd h (by decide)
      | ok v => rw [hs] at h; simp at h
    · have hd' : isdigit t0 = false := by simpa using hd
      match stack, h with
      | [], h => simp [evalStepM, hd'] at h
      | [_], h => simp [evalStepM, hd'] at h
      | b :: a :: rest, h =>
        simp only [evalStepM, hd', Bool.false_eq_true, if_false] at h
        cases ha : applyOpM a b t0 with
        | none => rw [ha] at h; simp at h
        | some r =>
          cases r with
          | ok v => rw [ha] at h; simp at h
          | error e =>
            rw [ha] at h
            simp only [Option.some.injEq, Except.error.injEq] at h
            rw [h] at ha
            obtain ⟨h1, h2⟩ := applyOpM_divzero ha
            exact ⟨by simp [h1], a, rest, by rw [h2]⟩

theorem evalTokensM_divzero (ts : List (List Char)) :
    ∀ stack : List Int, evalTokensM stack ts = some (.error "Division by zero") →
      ∃ pre tok post a rest, ts = pre ++ tok :: post ∧ tok.head? = some '/' ∧
        evalTokensM stack pre = some (.ok (0 :: a :: rest)) := by
  induction ts with
  | nil => intro stack h; simp [evalTokensM] at h
  | cons t ts ih =>
    intro stack h
    rw [evalTokensM] at h
    cases hs : evalStepM stack t with
    | none => rw [hs] at h; simp at h
    | some r =>
      cases r with
      | error e =>
        rw [hs] at h
        simp only [Option.some.injEq, Except.error.injEq] at h
        rw [h] at hs
        obtain ⟨h1, a, rest, h2⟩ := evalStepM_divzero stack t hs
        exact ⟨[], t, ts, a, rest, rfl, h1, by rw [h2]; rfl⟩
      | ok stack' =>
        rw [hs] at h
        obtain ⟨pre, tok, post, a, rest, h1, h2, h3⟩ := ih stack' h
        refine ⟨t :: pre, tok, post, a, rest, by rw [h1]; rfl, h2, ?_⟩
        rw [evalTokensM, hs]
        exact h3

/-- C7: with the arithmetic of the machine (32-bit `int`, results of `+ - *`
wrapping around), for every well-formed single-digit infix expression whose
evaluation, operands left to right, reaches a division whose right operand is zero,
converting and evaluating returns the error `Division by zero` and no integer;
conversely `evaluatePostfix` returns that error only when, after a prefix of the
tokens has been evaluated without error, the next token starts with `/` and the
operand stack has `0` on top of at least two values. -/
theorem division_by_zero_reported :
    (∀ (e : Expr) (s : List Char), e.WellFormed →
      s.filter (fun c => !isspace c) = e.render → e.machineValue = .divisionByZero →
      ∃ p, infixToPostfix s = .ok p ∧
        evaluatePostfixM p = some (.error "Division by zero")) ∧
    (∀ s : List Char, evaluatePostfixM s = some (.error "Division by zero") →
      ∃ pre tok post a rest, split s = pre ++ tok :: post ∧ tok.head? = some '/' ∧
        evalTokensM [] pre = some (.ok (0 :: a :: rest))) := by
  constructor
  · intro e s hwf hs hz
    refine ⟨e.emitted ++ flush (e.pending.map Op.symbol), ?_, ?_⟩
    · rw [← infixToPostfix_filter, hs, infixToPostfix_render e hwf]
    · rw [evaluatePostfixM_emitted, hz]
  · intro s h
    apply evalTokensM_divzero (split s) []
    unfold evaluatePostfixM at h
    cases ht : evalTokensM [] (split s) with
    | none => rw [ht] at h; simp at h
    | some r =>
      cases r with
      | error m =>
        rw [ht] at h
        simpa using h
      | ok stack =>
        rw [ht] at h
        match stack, h with
        | [], h => simp at h
        | [_], h => simp at h
        | _ :: _ :: _, h => simp at h

/-- The expression `7 / ( 2 - 2 )` divides by zero and is reported so; so is
`1/(4*4*4*4*4*4*4*4*4*4*4*4*4*4*4*4)`, whose divisor `4 ^ 16` wraps around to zero;
and the postfix string `7 0 /` fails at its token `/` with `0` on top of the stack. -/
theorem division_by_zero_reported_witness :
    (∃ p, infixToPostfix "7 / ( 2 - 2 )".toList = .ok p ∧
      evaluatePostfixM p = some (.error "Division by zero")) ∧
    ((Expr.bin .div (.num 1) (.paren (mulChain 4 15))).render
        = "1/(4*4*4*4*4*4*4*4*4*4*4*4*4*4*4*4)".toList ∧
      ∃ p, infixToPostfix "1/(4*4*4*4*4*4*4*4*4*4*4*4*4*4*4*4)".toList = .ok p ∧
        evaluatePostfixM p = some (.error "Division by zero")) ∧
    (∃ pre tok post a rest, split "7 0 /".toList = pre ++ tok :: post ∧
      tok.head? = some '/' ∧ evalTokensM [] pre = some (.ok (0 :: a :: rest))) :=
  ⟨division_by_zero_reported.1
      (.bin .div (.num 7) (.paren (.bin .sub (.num 2) (.num 2))))
      "7 / ( 2 - 2 )".toList (by decide) (by decide) (by decide),
    ⟨by decide,
      division_by_zero_reported.1 (.bin .div (.num 1) (.paren (mulChain 4 15)))
        "1/(4*4*4*4*4*4*4*4*4*4*4*4*4*4*4*4)".toList (by decide) (by decide) (by decide)⟩,
    division_by_zero_reported.2 "7 0 /".toList (by decide)⟩


end Calc

